import Mathlib

/-!
Verification of the CV-JD matching pipeline (reranking, single-pair service,
XAI explanation builder, dataset normalizer) against its specification.

The Python modules `reranking.py`, `single_match.py`, `xai.py` and
`normalizzatore.py` are shallowly embedded below: pure functions become Lean
functions over `String`, `ℚ`, `ℝ`, `List` and `Finset`; pandas per-group
operations become list/`Fin`-indexed operations on one JD group; fallible
code returns `Option`/`Except`.  Floats are modelled as exact rationals
(reals where square roots occur), `NaN` cells as `Option.none`.
-/

set_option maxRecDepth 10000

namespace PiazzaTi

/-- Python `str.split(sep)` for a single-character separator: split at every
occurrence, keeping empty pieces. -/
def pySplitChar (sep : Char) : List Char → List (List Char)
  | [] => [[]]
  | c :: rest =>
    match pySplitChar sep rest with
    | [] => [[]]
    | p :: ps => if c = sep then [] :: p :: ps else (c :: p) :: ps

/-- Python `str.strip` (whitespace trim on both ends). -/
def pyStripL (cs : List Char) : List Char :=
  ((cs.dropWhile Char.isWhitespace).reverse.dropWhile Char.isWhitespace).reverse

/-- Python `str.strip` on `String`. -/
def pyStrip (s : String) : String := String.mk (pyStripL s.toList)

/-- Python `str.lower` (ASCII case fold, sufficient for the data handled). -/
def pyLowerL (cs : List Char) : List Char := cs.map Char.toLower

/-- Python `str.lower` on `String`. -/
def pyLower (s : String) : String := String.mk (pyLowerL s.toList)

/-- Python `str.capitalize`: first character upper-cased, the rest lower-cased. -/
def pyCapitalize (s : String) : String :=
  match s.toList with
  | [] => ""
  | c :: cs => String.mk (c.toUpper :: cs.map Char.toLower)

namespace reranking

/-- The leading-junk removal `re.sub(r'^[\*e\s]+', '', clean_skill)` in
`parse_skills_string` (`reranking.py`): drops the maximal leading run of
characters belonging to the class star / letter e / whitespace. -/
def stripLeadingJunk : List Char → List Char
  | [] => []
  | c :: cs => if c = '*' ∨ c = 'e' ∨ c.isWhitespace then stripLeadingJunk cs else c :: cs

/-- `parse_skills_string` (`reranking.py`): `NaN`/empty gives the empty set;
otherwise split on commas, strip+lowercase each token, drop the leading
`[\*e\s]+` run, and collect the non-empty results into a set. -/
def parse_skills_string (skills_str : Option String) : Finset String :=
  match skills_str with
  | none => ∅
  | some s =>
    if s = "" then ∅ else
    (pySplitChar ',' s.toList).foldl
      (fun skills skill =>
        let clean_skill := String.mk (stripLeadingJunk (pyLowerL (pyStripL skill)))
        if clean_skill ≠ "" then insert clean_skill skills else skills)
      ∅

/-- The `skill_overlap_core_norm` feature of `compute_skills_features`
(`reranking.py`): `len(core_overlap) / len(jd_requirements) if jd_requirements
else 0.0`, with `core_overlap = cv_skills ∩ jd_requirements`. -/
def skill_overlap_core_norm (cv_skills jd_requirements : Finset String) : ℚ :=
  if jd_requirements.Nonempty then
    ((cv_skills ∩ jd_requirements).card : ℚ) / (jd_requirements.card : ℚ)
  else 0

/-- `group.min()` of a pandas series, as the minimum of a (non-empty in the
pipeline) list of rationals. -/
def listMin : List ℚ → ℚ
  | [] => 0
  | x :: xs => xs.foldl min x

/-- `group.max()` of a pandas series. -/
def listMax : List ℚ → ℚ
  | [] => 0
  | x :: xs => xs.foldl max x

/-- `normalize_within_group` from `compute_semantic_features` (`reranking.py`):
per-JD-group min-max normalization; a degenerate group (max = min) maps to the
constant `0.5`. -/
def normalize_within_group (group : List ℚ) : List ℚ :=
  if listMax group = listMin group then group.map (fun _ => 1 / 2)
  else group.map (fun x => (x - listMin group) / (listMax group - listMin group))

/-- `normalize_group` from `compute_linear_score` (`reranking.py`); textually
the same min-max rule applied to the raw linear score. -/
def normalize_group (group : List ℚ) : List ℚ :=
  if listMax group = listMin group then group.map (fun _ => 1 / 2)
  else group.map (fun x => (x - listMin group) / (listMax group - listMin group))

/-- `Series.clip(0, 1)`, applied elementwise. -/
def clip01 (x : ℚ) : ℚ := max 0 (min 1 x)

/-- `TAG_BOOST` from `DEIConfig` (`reranking.py`). -/
def TAG_BOOST : ℚ := 1 / 20

/-- `compute_dei_score` (`reranking.py`) on one JD group:
`score_with_dei = (cosine_similarity_normalized + dei_tag_count * TAG_BOOST).clip(0, 1)`. -/
def score_with_dei (cos_norm : List ℚ) (dei_tag_count : List ℕ) : List ℚ :=
  cos_norm.zipWith (fun c n => clip01 (c + (n : ℚ) * TAG_BOOST)) dei_tag_count

/-- The linear-model weight table `LinearConfig.WEIGHTS` (`reranking.py`). -/
def WEIGHTS : List (String × ℚ) :=
  [("cosine_similarity_normalized", 30 / 100),
   ("skill_overlap_core_norm", 15 / 100),
   ("skill_coverage_total", 5 / 100),
   ("skill_overlap_nice_norm", 5 / 100),
   ("experience_meets_requirement", 15 / 100),
   ("experience_bonus", 5 / 100),
   ("seniority_match", 15 / 100),
   ("role_similarity_jaccard", 5 / 100),
   ("role_coherent", 5 / 100),
   ("must_have_missing", -5 / 100),
   ("experience_penalty_soft", -10 / 100),
   ("experience_significantly_under", -10 / 100),
   ("seniority_mismatch_strong", -15 / 100),
   ("seniority_underskilled", -5 / 100)]

/-- `linear_score_raw` of `compute_linear_score` (`reranking.py`): the weighted
sum over the weight table.  A row is modelled as a total feature valuation
`String → ℚ`, a missing column or `NaN` cell contributing `0` exactly as
`df[feature].fillna(0)` / the skipped-column branch do. -/
def linear_score_raw (row : String → ℚ) : ℚ :=
  (WEIGHTS.map (fun fw => fw.2 * row fw.1)).sum

/-- The `final_score` column of `compute_linear_score` (`reranking.py`) for one
JD group: per-group min-max normalization of the raw linear scores, plus the
row's `dei_boost`, clipped to `[0, 1]`. -/
def final_score_group (raw_scores dei_boosts : List ℚ) : List ℚ :=
  (normalize_group raw_scores).zipWith (fun l d => clip01 (l + d)) dei_boosts

/-- Pandas `rank(method='first', ascending=False)` of the element at index `i`:
one plus the number of elements that come strictly earlier in the stable
descending order, i.e. with a larger value, or an equal value and a smaller
index. -/
def rankIdx (s : List ℚ) (i : Fin s.length) : ℕ :=
  1 + (Finset.univ.filter
    (fun j => s.get i < s.get j ∨ (s.get j = s.get i ∧ j < i))).card

/-- The full rank column `rank(method='first', ascending=False)` for one JD
group. -/
def rankFirstDesc (s : List ℚ) : List ℕ :=
  List.ofFn (rankIdx s)

/-- The `rank_with_dei` column of `rerank_with_dei` (`reranking.py`) for one JD
group. -/
def rank_with_dei (cos_norm : List ℚ) (dei_tag_count : List ℕ) : List ℕ :=
  rankFirstDesc (score_with_dei cos_norm dei_tag_count)

/-- The `final_rank` column of `compute_linear_score` (`reranking.py`) for one
JD group. -/
def final_rank_group (raw_scores dei_boosts : List ℚ) : List ℕ :=
  rankFirstDesc (final_score_group raw_scores dei_boosts)

end reranking

namespace singleMatch

/-- The leading-junk removal of `parse_skills_string` in `single_match.py`
(same regex `^[\*e\s]+` as the batch module). -/
def stripLeadingJunk : List Char → List Char
  | [] => []
  | c :: cs => if c = '*' ∨ c = 'e' ∨ c.isWhitespace then stripLeadingJunk cs else c :: cs

/-- `parse_skills_string` (`single_match.py`), textually the same algorithm as
the batch copy in `reranking.py`. -/
def parse_skills_string (skills_str : Option String) : Finset String :=
  match skills_str with
  | none => ∅
  | some s =>
    if s = "" then ∅ else
    (pySplitChar ',' s.toList).foldl
      (fun skills skill =>
        let clean := String.mk (stripLeadingJunk (pyLowerL (pyStripL skill)))
        if clean ≠ "" then insert clean skills else skills)
      ∅

/-- Does the regex `\d+\+?\s*(years?|anni)` match starting exactly at the head
of the character list: a non-empty digit run, an optional plus, optional
whitespace, then the literal `year` (`years?` succeeds on the `year` part) or
`anni`. -/
def yearsPatAt (cs : List Char) : Bool :=
  let ds := cs.takeWhile Char.isDigit
  let rest := cs.dropWhile Char.isDigit
  let rest := match rest with
    | '+' :: r => r
    | r => r
  let rest := rest.dropWhile Char.isWhitespace
  decide (ds ≠ []) && (List.isPrefixOf "year".toList rest || List.isPrefixOf "anni".toList rest)

/-- `re.search(r'\d+\+?\s*(years?|anni)', s)` succeeds iff the pattern matches
at some position of `s`. -/
def hasYearsPat (s : String) : Bool :=
  s.toList.tails.any yearsPatAt

/-- The filtering `jd_req = {s for s in jd_req if not re.search(r'\d+\+?\s*(years?|anni)', s)}`
applied to the requirement set in `compute_features` (`single_match.py`). -/
def filtered_requirements (jd_req : Finset String) : Finset String :=
  jd_req.filter (fun s => ¬ hasYearsPat s)

/-- The `skill_overlap_core_norm` feature of `compute_features`
(`single_match.py`): the overlap count over the (years-filtered) requirement
count when the latter is non-zero, else `0.0`. -/
def skill_overlap_core_norm (cv_skills jd_req : Finset String) : ℚ :=
  let r := filtered_requirements jd_req
  if r.Nonempty then ((cv_skills ∩ r).card : ℚ) / (r.card : ℚ) else 0

/-- `get_quality_label` (`single_match.py`) with the default
`Config.QUALITY_THRESHOLDS` (`excellent: 0.5, good: 0.3`); stated over any
linear ordered field so the same rule applies to the real-valued service
scores and to rational test points. -/
def get_quality_label {K : Type} [LinearOrderedField K] (score : K) : String :=
  if score ≥ (1 : K) / 2 then "EXCELLENT"
  else if score ≥ (3 : K) / 10 then "GOOD"
  else "WEAK"

/-- The quality-label block hardcoded inside `build_xai` (`single_match.py`):
`final_score >= 0.5` EXCELLENT, `>= 0.3` GOOD, else WEAK. -/
def build_xai_quality_label {K : Type} [LinearOrderedField K] (final_score : K) : String :=
  if final_score ≥ (1 : K) / 2 then "EXCELLENT"
  else if final_score ≥ (3 : K) / 10 then "GOOD"
  else "WEAK"

/-- The single-match weight table `Config.WEIGHTS` (v1.2, `single_match.py`). -/
def WEIGHTS : List (String × ℚ) :=
  [("cosine_similarity_normalized", 45 / 100),
   ("skill_overlap_core_norm", 30 / 100),
   ("skill_coverage_total", 15 / 100),
   ("skill_overlap_nice_norm", 75 / 1000),
   ("experience_meets_requirement", 30 / 100),
   ("seniority_match", 75 / 1000),
   ("role_similarity_jaccard", 10 / 100),
   ("role_coherent", 10 / 100),
   ("must_have_missing", -75 / 1000),
   ("experience_penalty_soft", -15 / 100),
   ("seniority_mismatch_strong", -225 / 1000),
   ("seniority_underskilled", -75 / 1000)]

/-- The `final_score` of `compute_score` (`single_match.py`):
`max(0, min(1, score + dei_boost))` where `score` is the weighted sum over the
weight table.  Features are modelled as a total real valuation (a missing key
or `NaN` contributing `0`, as `features.get(feat, 0)` and the `pd.isna` guard
do); `dei_boost` is itself looked up from the feature map. -/
def compute_score_final (features : String → ℝ) : ℝ :=
  max 0 (min 1 ((WEIGHTS.map (fun fw => (fw.2 : ℝ) * features fw.1)).sum +
    features "dei_boost"))

/-- `np.dot` of two equal-length embedding vectors. -/
def dotList (vec1 vec2 : List ℝ) : ℝ := (List.zipWith (fun a b => a * b) vec1 vec2).sum

/-- The squared `np.linalg.norm`: the sum of the squares of the entries. -/
def sumSq (vec : List ℝ) : ℝ := (vec.map (fun x => x * x)).sum

/-- `cosine_similarity` (`single_match.py`): `0.0` when either L2 norm is zero,
else the dot product over the product of the L2 norms. -/
noncomputable def cosine_similarity (vec1 vec2 : List ℝ) : ℝ :=
  if Real.sqrt (sumSq vec1) = 0 ∨ Real.sqrt (sumSq vec2) = 0 then 0
  else dotList vec1 vec2 / (Real.sqrt (sumSq vec1) * Real.sqrt (sumSq vec2))

end singleMatch

namespace xai

/-- The quality-label block of `build_xai_company` (`xai.py`):
`final_score >= 0.45` EXCELLENT, `>= 0.20` GOOD, else WEAK. -/
def build_xai_company_quality_label {K : Type} [LinearOrderedField K] (final_score : K) : String :=
  if final_score ≥ (9 : K) / 20 then "EXCELLENT"
  else if final_score ≥ (1 : K) / 5 then "GOOD"
  else "WEAK"

end xai

namespace normalizzatore

/-- A calendar date as handled by Python `datetime` (proleptic Gregorian; the
model is used for years `≥ 1`, which covers every date the pipeline parses). -/
structure PyDate where
  year : ℤ
  month : ℤ
  day : ℤ
deriving DecidableEq

/-- Gregorian leap-year rule. -/
def isLeap (y : ℤ) : Bool := (y % 4 = 0 ∧ y % 100 ≠ 0) ∨ y % 400 = 0

/-- Days in the days-before-year count of `datetime.date.toordinal`. -/
def daysBeforeYear (y : ℤ) : ℤ :=
  365 * (y - 1) + (y - 1) / 4 - (y - 1) / 100 + (y - 1) / 400

/-- Month lengths. -/
def monthDays (leap : Bool) : List ℤ :=
  [31, if leap then 29 else 28, 31, 30, 31, 30, 31, 31, 30, 31, 30, 31]

/-- Days before the first of month `m` in year `y`. -/
def daysBeforeMonth (y m : ℤ) : ℤ :=
  ((monthDays (isLeap y)).take (m - 1).toNat).sum

/-- `datetime.date.toordinal`: day number with `0001-01-01 = 1`; differences of
ordinals are exactly `timedelta.days`. -/
def toOrdinal (d : PyDate) : ℤ :=
  daysBeforeYear d.year + daysBeforeMonth d.year d.month + d.day

/-- The numeric value of a digit string. -/
def digitsToNat (cs : List Char) : ℕ :=
  cs.foldl (fun n c => 10 * n + (c.toNat - '0'.toNat)) 0

/-- Is the list a non-empty run of digits. -/
def allDigits (cs : List Char) : Bool :=
  decide (cs ≠ []) && cs.all Char.isDigit

/-- A `\w` character for the `\b` boundaries of the year-fallback regex. -/
def isWordChar (c : Char) : Bool := c.isAlphanum || c = '_'

/-- Does `\b(19|20)\d{2}\b` match at the head of `cs` (with `prev` the
character just before, if any). -/
def yearAtHead (prev : Option Char) (cs : List Char) : Option ℕ :=
  match cs with
  | c1 :: c2 :: c3 :: c4 :: rest =>
    if ((c1 == '1' && c2 == '9') || (c1 == '2' && c2 == '0')) && c3.isDigit && c4.isDigit
        && (match prev with | some p => ! isWordChar p | none => true)
        && (match rest with | r :: _ => ! isWordChar r | [] => true) then
      some (digitsToNat [c1, c2, c3, c4])
    else none
  | _ => none

/-- `re.search(r'\b(19|20)\d{2}\b', s)`: the leftmost four-digit year starting
with 19 or 20 delimited by word boundaries. -/
def findYear (prev : Option Char) : List Char → Option ℕ
  | [] => none
  | c :: rest =>
    match yearAtHead prev (c :: rest) with
    | some y => some y
    | none => findYear (some c) rest

/-- The lowercase sentinel strings that `parse_date_flexible` maps to
`datetime.now()`. -/
def nowSentinels : List String := ["present", "presente", "current", "attuale", "now"]

/-- `parse_date_flexible` (`normalizzatore.py`).  The `dateutil.parser.parse`
call (an external library) is modelled for the numeric formats that occur in
the experience strings — `YYYY`, `YYYY-MM`, `YYYY-MM-DD`, parsed with the
missing fields taken from the `default=datetime(2000, 1, 1)` argument — and
the sentinel words mapped to `now`; any other shape falls back to the
`\b(19|20)\d{2}\b` year regex, else `None`.  (The Italian month-name
replacement step is the identity on such inputs.) -/
def parse_date_flexible (now : PyDate) (date_str : String) : Option PyDate :=
  if date_str = "" then none
  else
    let s := pyStripL date_str.toList
    if nowSentinels.contains (String.mk (pyLowerL s)) then some now
    else
      let fallback :=
        match findYear none s with
        | some y => some (PyDate.mk y 1 1)
        | none => none
      match pySplitChar '-' s with
      | [y] =>
        if allDigits y ∧ y.length = 4 then some (PyDate.mk (digitsToNat y) 1 1)
        else fallback
      | [y, m] =>
        if allDigits y ∧ y.length = 4 ∧ allDigits m ∧ m.length ≤ 2
            ∧ 1 ≤ digitsToNat m ∧ digitsToNat m ≤ 12 then
          some (PyDate.mk (digitsToNat y) (digitsToNat m) 1)
        else fallback
      | [y, m, d] =>
        if allDigits y ∧ y.length = 4 ∧ allDigits m ∧ m.length ≤ 2
            ∧ 1 ≤ digitsToNat m ∧ digitsToNat m ≤ 12
            ∧ allDigits d ∧ d.length ≤ 2 ∧ 1 ≤ digitsToNat d ∧ digitsToNat d ≤ 31 then
          some (PyDate.mk (digitsToNat y) (digitsToNat m) (digitsToNat d))
        else fallback
      | _ => fallback

/-- `re.search(r'\[(.*?)\]', exp)`: the text between the first `[` and the
next `]` after it, if both exist. -/
def extractBracket (cs : List Char) : Option (List Char) :=
  match cs.dropWhile (fun c => c ≠ '[') with
  | [] => none
  | _ :: after =>
    if after.any (fun c => c = ']') then some (after.takeWhile (fun c => c ≠ ']'))
    else none

/-- Is the character one of the hyphen/en-dash alternatives of the class
`[-–]`. -/
def isDashChar (c : Char) : Bool := c = '-' || c = '–'

/-- Split at every dash character, keeping empty pieces. -/
def splitOnDashes : List Char → List (List Char)
  | [] => [[]]
  | c :: rest =>
    match splitOnDashes rest with
    | [] => [[]]
    | p :: ps => if isDashChar c then [] :: p :: ps else (c :: p) :: ps

/-- `re.split(r'\s*[-–]\s*', date_range)`: split at every dash — including the
dashes inside `YYYY-MM` dates, since `\s*` matches the empty string — with the
whitespace adjacent to each dash consumed (every piece but the first loses
leading whitespace, every piece but the last loses trailing whitespace). -/
def reSplitDashes (cs : List Char) : List (List Char) :=
  let ps := splitOnDashes cs
  let n := ps.length
  ps.enum.map (fun ip =>
    let p := if ip.1 = 0 then ip.2 else ip.2.dropWhile Char.isWhitespace
    if ip.1 = n - 1 then p else (p.reverse.dropWhile Char.isWhitespace).reverse)

/-- The canonical embedding of an integer into the rationals. -/
def intToQ (n : ℤ) : ℚ := mkRat n 1

/-- Floor of a rational, via flooring integer division (kernel-reducible). -/
def ratFloor (q : ℚ) : ℤ := Int.fdiv q.num q.den

/-- Python `max(a, b)` on rationals (the second argument wins only when
strictly larger, as in CPython). -/
def pyMaxQ (a b : ℚ) : ℚ := if a < b then b else a

/-- The contribution of one `|`-separated experience segment inside
`calculate_years_of_experience` (`normalizzatore.py`): extract the bracketed
date range, split it with `re.split(r'\s*[-–]\s*', ...)`, and only if exactly
two parts remain and both parse, add `max(0, (end - start).days / 365.25)`;
otherwise the segment contributes `0`. -/
def segmentYears (now : PyDate) (seg : List Char) : ℚ :=
  match extractBracket seg with
  | none => 0
  | some range =>
    match reSplitDashes range with
    | [start_str, end_str] =>
      match parse_date_flexible now (String.mk start_str),
          parse_date_flexible now (String.mk end_str) with
      | some start_date, some end_date =>
        pyMaxQ 0 (intToQ (toOrdinal end_date - toOrdinal start_date) / (1461 / 4))
      | _, _ => 0
    | _ => 0

/-- Python `round(q)` (banker's rounding, half to even). -/
def pyRoundHalfEven (q : ℚ) : ℤ :=
  let f := ratFloor q
  if q - intToQ f < 1 / 2 then f
  else if q - intToQ f > 1 / 2 then f + 1
  else if f % 2 = 0 then f else f + 1

/-- Python `round(q, 1)`. -/
def pyRound1 (q : ℚ) : ℚ := intToQ (pyRoundHalfEven (q * 10)) / 10

/-- `calculate_years_of_experience` (`normalizzatore.py`): split the
experience string on `|`, sum the per-segment contributions, and round the
total to one decimal. -/
def calculate_years_of_experience (now : PyDate) (experience_str : String) : ℚ :=
  if experience_str = "" then 0
  else pyRound1 (((pySplitChar '|' experience_str.toList).map (segmentYears now)).sum)

/-- The mapping tables of `skill_ontology.json` (comment keys already removed,
as `SkillOntology.__init__` does); the running unmapped-skill tally is a side
effect that never changes a normalization result and is not modelled. -/
structure SkillOntology where
  skill_mappings : List (String × String)
  seniority_mappings : List (String × String)
  cefr_mappings : List (String × String)

/-- Python dict lookup on an association list (insertion order preserved). -/
def lookupBy {α : Type} (m : List (String × α)) (k : String) : Option α :=
  (m.find? (fun kv => kv.1 == k)).map (fun kv => kv.2)

/-- `SkillOntology.normalize_skill` (`normalizzatore.py`): exact lowercase
lookup, else the capitalized trimmed input (recording the unmapped term is a
side effect with no influence on the returned string). -/
def normalize_skill (ont : SkillOntology) (skill : String) : String :=
  if skill = "" then ""
  else
    let skill_clean := pyStrip skill
    match lookupBy ont.skill_mappings (pyLower skill_clean) with
    | some v => v
    | none => pyCapitalize skill_clean

/-- `re.sub(r'\([^)]*\)', '', s)` with explicit fuel (the fuel argument is the
initial length of the list, which always suffices): remove each substring from
a `(` to the next `)`; a `(` with no later `)` is kept. -/
def removeParensF : ℕ → List Char → List Char
  | 0, cs => cs
  | _ + 1, [] => []
  | fuel + 1, c :: rest =>
    if c = '(' then
      match rest.dropWhile (fun x => x ≠ ')') with
      | ')' :: t => removeParensF fuel t
      | _ => c :: removeParensF fuel rest
    else c :: removeParensF fuel rest

/-- `re.sub(r'\([^)]*\)', '', s)`. -/
def removeParens (cs : List Char) : List Char := removeParensF cs.length cs

/-- The duplicate-removal loop of `normalize_skills_string`: keep the first
occurrence of each non-empty normalized skill, preserving order. -/
def dedupeKeepFirst (seen : List String) : List String → List String
  | [] => []
  | x :: xs =>
    if x ≠ "" ∧ x ∉ seen then x :: dedupeKeepFirst (x :: seen) xs
    else dedupeKeepFirst seen xs

/-- Python `", ".join(l)`. -/
def joinCommaSpace : List String → String
  | [] => ""
  | [x] => x
  | x :: xs => x ++ ", " ++ joinCommaSpace xs

/-- `normalize_skills_string` (`normalizzatore.py`): strip parenthesized
qualifiers, split on commas, normalize each non-blank token through the
ontology, deduplicate preserving first-seen order, and rejoin with `", "`. -/
def normalize_skills_string (ont : SkillOntology) (skills_str : Option String) : String :=
  match skills_str with
  | none => ""
  | some s =>
    if s = "" then ""
    else
      let cleaned := removeParens s.toList
      let skills := (pySplitChar ',' cleaned).filterMap (fun t =>
        let t' := pyStripL t
        if t' ≠ [] then some (normalize_skill ont (String.mk t')) else none)
      joinCommaSpace (dedupeKeepFirst [] skills)

/-- `SkillOntology.normalize_cefr` (`normalizzatore.py`): exact lookup on the
lowercased trimmed level, default `"B2"`. -/
def normalize_cefr (ont : SkillOntology) (level_str : String) : String :=
  if level_str = "" then "B2"
  else
    match lookupBy ont.cefr_mappings (pyLower (pyStrip level_str)) with
    | some v => v
    | none => "B2"

/-- `normalize_language` (`normalizzatore.py`): on a match of
`([^(]+)\(([^)]+)\)` return the capitalized name with the CEFR-normalized
level, else the capitalized trimmed input with default level `"B2"`. -/
def normalize_language (ont : SkillOntology) (lang_str : String) : String × String :=
  if lang_str = "" then ("", "")
  else
    let t := pyStripL lang_str.toList
    let fallback := (pyCapitalize (String.mk t), "B2")
    let name := t.takeWhile (fun c => c ≠ '(')
    match t.dropWhile (fun c => c ≠ '(') with
    | _ :: inner =>
      if name ≠ [] then
        match inner.dropWhile (fun c => c ≠ ')') with
        | _ :: _ =>
          let lvl := inner.takeWhile (fun c => c ≠ ')')
          if lvl ≠ [] then
            (pyCapitalize (pyStrip (String.mk name)),
              normalize_cefr ont (String.mk (pyStripL lvl)))
          else fallback
        | [] => fallback
      else fallback
    | [] => fallback

/-- `normalize_languages_string` (`normalizzatore.py`). -/
def normalize_languages_string (ont : SkillOntology) (langs_str : Option String) : String :=
  match langs_str with
  | none => ""
  | some s =>
    if s = "" then ""
    else
      joinCommaSpace ((pySplitChar ',' s.toList).filterMap (fun t =>
        let t' := pyStripL t
        if t' ≠ [] then
          let p := normalize_language ont (String.mk t')
          if p.1 ≠ "" then some (p.1 ++ " (" ++ p.2 ++ ")") else none
        else none))

/-- Is `needle` a contiguous substring of `hay` (Python `in` on strings). -/
def isSubstringOf (needle hay : List Char) : Bool :=
  hay.tails.any (fun t => List.isPrefixOf needle t)

/-- Does the regex `(\d+)\+?\s*(years|anni)` match at the head of `cs`; if so
return the numeric value of the digit group. -/
def seniorityYearsAt (cs : List Char) : Option ℕ :=
  let ds := cs.takeWhile Char.isDigit
  if ds = [] then none
  else
    let rest := cs.dropWhile Char.isDigit
    let rest := match rest with
      | '+' :: r => r
      | r => r
    let rest := rest.dropWhile Char.isWhitespace
    if List.isPrefixOf "years".toList rest || List.isPrefixOf "anni".toList rest then
      some (digitsToNat ds)
    else none

/-- `re.search(r'(\d+)\+?\s*(years|anni)', s)`: leftmost match. -/
def findSeniorityYears : List Char → Option ℕ
  | [] => none
  | c :: rest =>
    match seniorityYearsAt (c :: rest) with
    | some y => some y
    | none => findSeniorityYears rest

/-- `SkillOntology._years_to_seniority` (`normalizzatore.py`). -/
def years_to_seniority (years : ℚ) : String :=
  if years < 2 then "junior" else if years < 5 then "mid" else "senior"

/-- `SkillOntology.normalize_seniority` (`normalizzatore.py`): first matching
keyword substring from the mapping table (insertion order), else the
`N years/anni` pattern bucketed, else `"mid"`. -/
def normalize_seniority (ont : SkillOntology) (seniority_str : Option String) : String :=
  match seniority_str with
  | none => "mid"
  | some s =>
    if s = "" then "mid"
    else
      let sen_lower := pyLowerL (pyStripL s.toList)
      match ont.seniority_mappings.find? (fun kv => isSubstringOf kv.1.toList sen_lower) with
      | some kv => kv.2
      | none =>
        match findSeniorityYears sen_lower with
        | some y => years_to_seniority (mkRat y 1)
        | none => "mid"

/-- `infer_seniority_from_experience` (`normalizzatore.py`): bucket the
computed years of experience (`< 2` junior, `< 5` mid, else senior). -/
def infer_seniority_from_experience (now : PyDate) (experience_str : Option String) :
    String × ℚ :=
  let years := calculate_years_of_experience now
    (match experience_str with | none => "" | some s => s)
  (if years < 2 then "junior" else if years < 5 then "mid" else "senior", years)

/-- One scanning step of `re.sub(rf'\b{word}\b', '', s, flags=IGNORECASE)` for
a fixed lowercase word, with explicit fuel (the initial list length, which
always suffices); `prev` is the character before the current position, for the
left `\b` boundary. -/
def removeWordAux (w : List Char) : ℕ → Option Char → List Char → List Char
  | 0, _, cs => cs
  | _ + 1, _, [] => []
  | fuel + 1, prev, c :: rest =>
    let n := w.length
    let candidate := (c :: rest).take n
    if (pyLowerL candidate == w) && (candidate.length == n)
        && (match prev with | some p => ! isWordChar p | none => true)
        && (match (c :: rest).drop n with | x :: _ => ! isWordChar x | [] => true) then
      removeWordAux w fuel candidate.getLast? ((c :: rest).drop n)
    else c :: removeWordAux w fuel (some c) rest

/-- `re.sub(rf'\b{word}\b', '', s, flags=IGNORECASE)` for a lowercase word. -/
def removeWordCI (w : List Char) (cs : List Char) : List Char :=
  removeWordAux w cs.length none cs

/-- `re.sub(r'\s+', ' ', s)`: collapse every whitespace run to one space. -/
def collapseWsAux : Bool → List Char → List Char
  | _, [] => []
  | prevWs, c :: rest =>
    if c.isWhitespace then
      if prevWs then collapseWsAux true rest else ' ' :: collapseWsAux true rest
    else c :: collapseWsAux false rest

/-- `extract_salary_range` (`normalizzatore.py`): strip, remove the vague
words `circa/about/around/approximately` (whole words, case-insensitive),
collapse whitespace and strip again. -/
def extract_salary_range (salary_str : Option String) : String :=
  match salary_str with
  | none => ""
  | some s =>
    if s = "" then ""
    else
      let clean := pyStripL s.toList
      let clean := (["circa", "about", "around", "approximately"].map String.toList).foldl
        (fun acc w => removeWordCI w acc) clean
      String.mk (pyStripL (collapseWsAux false clean))

/-- Python `int(q)` on a float: truncation toward zero. -/
def pyInt (q : ℚ) : ℤ := Int.tdiv q.num (q.den : ℤ)

/-- `SENIORITY_TO_YEARS` (`normalizzatore.py`). -/
def SENIORITY_TO_YEARS : List (String × ℤ) := [("junior", 1), ("mid", 3), ("senior", 5)]

/-- `MIN_EXP_YEARS_DEFAULT` (`normalizzatore.py`). -/
def MIN_EXP_YEARS_DEFAULT : ℤ := 2

/-- `normalize_min_experience_years` (`normalizzatore.py`): use the provided
value truncated to an int, clamped into the valid range `(1, 10)`; else infer
from the normalized seniority; else the default `2`.  A `NaN` cell is
`Option.none` (the string-parse failure branch of the `try` is not reachable
for the numeric CSV column as modelled). -/
def normalize_min_experience_years (value : Option ℚ) (seniority : Option String) : ℤ :=
  match value with
  | some v =>
    let years := pyInt v
    if 1 ≤ years ∧ years ≤ 10 then years else max 1 (min 10 years)
  | none =>
    match seniority with
    | some s =>
      match (if s ≠ "" then lookupBy SENIORITY_TO_YEARS s else none) with
      | some y => y
      | none => MIN_EXP_YEARS_DEFAULT
    | none => MIN_EXP_YEARS_DEFAULT

/-- `normalize_company_name` (`normalizzatore.py`): strip; empty/missing
becomes `""`. -/
def normalize_company_name (company_name : Option String) : String :=
  match company_name with
  | none => ""
  | some s => if s = "" then "" else String.mk (pyStripL s.toList)

/-- A row of the raw/normalized CV dataset: the columns read or written by
`normalize_cv_dataset`, with `Option.none` for `NaN` cells and the normalized
columns absent (`none`) before the first run.  The dynamically discovered
`tag_*` columns are the `tags` list, in column order. -/
structure CvRow where
  skills : Option String
  languages : Option String
  experience : Option String
  pref_salary_expectation : Option String
  tags : List (Option Bool)
  skills_normalized : Option String
  languages_normalized : Option String
  inferred_seniority : Option String
  years_of_experience : Option ℚ
  pref_salary_normalized : Option String
deriving DecidableEq

/-- The tag cleanup `df[tag_col].apply(lambda x: True if x is True else None)`
of `normalize_cv_dataset`. -/
def pyTagCell (x : Option Bool) : Option Bool :=
  if x = some true then some true else none

/-- `normalize_cv_dataset` (`normalizzatore.py`) on one row: every normalized
column is recomputed from the raw columns and written unconditionally; the
`tag_*` columns are rewritten in place. -/
def normalize_cv_row (ont : SkillOntology) (now : PyDate) (r : CvRow) : CvRow :=
  { r with
    skills_normalized := some (normalize_skills_string ont r.skills)
    languages_normalized := some (normalize_languages_string ont r.languages)
    inferred_seniority := some (infer_seniority_from_experience now r.experience).1
    years_of_experience := some (infer_seniority_from_experience now r.experience).2
    pref_salary_normalized := some (extract_salary_range r.pref_salary_expectation)
    tags := r.tags.map pyTagCell }

/-- A row of the raw/normalized JD dataset: the columns read or written by
`normalize_jd_dataset`. -/
structure JdRow where
  company_name : Option String
  requirements : Option String
  nice_to_have : Option String
  constraints_seniority : Option String
  min_experience_years : Option ℚ
  constraints_languages : Option String
  salary_min : Option ℚ
  salary_max : Option ℚ
  salary_currency : Option String
  company_name_normalized : Option String
  requirements_normalized : Option String
  nice_to_have_normalized : Option String
  constraints_seniority_normalized : Option String
  min_experience_years_normalized : Option ℤ
  constraints_languages_normalized : Option String
  salary_normalized : Option String
deriving DecidableEq

/-- The currency suffix appended by `rebuild_salary_string`:
`if sal_curr and not pd.isna(sal_curr): temp += f" {sal_curr}"`. -/
def addCurrency (salary_currency : Option String) (temp : String) : String :=
  match salary_currency with
  | some c => if c ≠ "" then temp ++ " " ++ c else temp
  | none => temp

/-- `rebuild_salary_string` inside `normalize_jd_dataset`. -/
def rebuild_salary_string (r : JdRow) : String :=
  match r.salary_min, r.salary_max with
  | none, none => ""
  | some mn, some mx =>
    addCurrency r.salary_currency (toString (pyInt mn) ++ "-" ++ toString (pyInt mx))
  | some mn, none => addCurrency r.salary_currency (toString (pyInt mn))
  | none, some mx => addCurrency r.salary_currency (toString (pyInt mx))

/-- `normalize_jd_dataset` (`normalizzatore.py`) on one row.  The two Booleans
model the *column* presence checks `'company_name' in df.columns` and
`'min_experience_years' in df.columns` — checks on optional input columns, not
on the output columns.  When the `company_name` column is absent it is created
empty; every normalized column is recomputed and written unconditionally. -/
def normalize_jd_row (ont : SkillOntology) (has_company_col has_min_exp_col : Bool)
    (r : JdRow) : JdRow :=
  let company_name := if has_company_col then r.company_name else some ""
  let seniority_norm := normalize_seniority ont r.constraints_seniority
  { r with
    company_name := company_name
    company_name_normalized := some (normalize_company_name company_name)
    requirements_normalized := some (normalize_skills_string ont r.requirements)
    nice_to_have_normalized := some (normalize_skills_string ont r.nice_to_have)
    constraints_seniority_normalized := some seniority_norm
    min_experience_years_normalized := some (
      if has_min_exp_col then
        normalize_min_experience_years r.min_experience_years (some seniority_norm)
      else
        match lookupBy SENIORITY_TO_YEARS seniority_norm with
        | some y => y
        | none => MIN_EXP_YEARS_DEFAULT)
    constraints_languages_normalized := some (normalize_languages_string ont r.constraints_languages)
    salary_normalized := some (extract_salary_range (some (rebuild_salary_string r))) }

end normalizzatore

namespace difflib

/-- One inner row of `SequenceMatcher.find_longest_match`: for the fixed
character `c = a[i]`, the run length ending at each position `j` of `b`
(`newj2len[j] = j2len.get(j - 1, 0) + 1` at matches, `0` elsewhere — the
dictionary is represented as a full row of naturals). -/
def flmRow (c : Char) (b : List Char) (prev : List ℕ) : List ℕ :=
  b.enum.map (fun jc =>
    if jc.2 = c then (if jc.1 = 0 then 0 else prev.getD (jc.1 - 1) 0) + 1 else 0)

/-- The best-block update of `find_longest_match` while scanning row `i`:
`if k > bestsize: besti, bestj, bestsize = i-k+1, j-k+1, k`, with `j`
ascending. -/
def bestInRow (i : ℕ) (row : List ℕ) (best : ℕ × ℕ × ℕ) : ℕ × ℕ × ℕ :=
  row.enum.foldl (fun best jk =>
    if jk.2 > best.2.2 then (i + 1 - jk.2, jk.1 + 1 - jk.2, jk.2) else best) best

/-- `SequenceMatcher.find_longest_match(0, len(a), 0, len(b))` without junk
(`get_close_matches` compares short id strings, so the `autojunk` heuristic —
active only for `len(b) >= 200` — never fires, and with an empty junk set the
two non-junk extension loops after the scan are no-ops, since every extendable
block is already found by the scan itself). -/
def find_longest_match (a b : List Char) : ℕ × ℕ × ℕ :=
  (a.enum.foldl (fun st ic =>
    let row := flmRow ic.2 b st.1
    (row, bestInRow ic.1 row st.2))
    (List.replicate b.length 0, (0, 0, 0))).2

/-- The total size of the matching blocks of `get_matching_blocks` (the
adjacent-block merging step does not change the total).  The fuel is the sum
of the list lengths plus one, which bounds the recursion depth. -/
def matchTotalF : ℕ → List Char → List Char → ℕ
  | 0, _, _ => 0
  | fuel + 1, a, b =>
    let m := find_longest_match a b
    if m.2.2 = 0 then 0
    else
      matchTotalF fuel (a.take m.1) (b.take m.2.1) + m.2.2 +
        matchTotalF fuel (a.drop (m.1 + m.2.2)) (b.drop (m.2.1 + m.2.2))

/-- The total matched size `sum(triple.size for triple in get_matching_blocks())`. -/
def matchTotal (a b : List Char) : ℕ := matchTotalF (a.length + b.length + 1) a b

/-- `SequenceMatcher.ratio()` with `a` the candidate and `b` the word:
`2.0 * M / T` (exact rational model of the float). -/
def ratioOf (a b : List Char) : ℚ :=
  mkRat (2 * (matchTotal a b : ℤ)) (a.length + b.length)

/-- Descending insertion in the `(score, string)` tuple order used by
`heapq.nlargest`: larger ratio first, ties by the larger string. -/
def insertDesc (p : ℚ × String) : List (ℚ × String) → List (ℚ × String)
  | [] => [p]
  | q :: qs =>
    if (q.1 < p.1) ∨ (p.1 = q.1 ∧ q.2 < p.2) then p :: q :: qs
    else q :: insertDesc p qs

/-- Sort `(score, string)` pairs in descending tuple order. -/
def sortDesc (l : List (ℚ × String)) : List (ℚ × String) := l.foldr insertDesc []

/-- `difflib.get_close_matches(word, possibilities, n, cutoff)`: keep the
candidates whose ratio reaches the cutoff (the `real_quick_ratio` and
`quick_ratio` gates are upper bounds of `ratio` and so never change the
outcome), order them by `nlargest` on `(ratio, candidate)` and return the
first `n`.  The float cutoff `0.4` is modelled as the exact rational. -/
def get_close_matches (word : String) (possibilities : List String)
    (n : ℕ) (cutoff : ℚ) : List String :=
  let scored := possibilities.filterMap (fun x =>
    let r := ratioOf x.toList word.toList
    if cutoff ≤ r then some (r, x) else none)
  ((sortDesc scored).take n).map (fun p => p.2)

end difflib

namespace singleMatch

/-- The single-quote character of a Python `repr` of a string. -/
def sq : String := String.singleton '\''

/-- Python `repr` of a plain string (as it appears inside `str(list)`). -/
def pyQuote (s : String) : String := sq ++ s ++ sq

/-- Python `str` of a list of strings, as interpolated into the hint
messages: `['a', 'b']`. -/
def pyListRepr (xs : List String) : String :=
  "[" ++ normalizzatore.joinCommaSpace (xs.map pyQuote) ++ "]"

/-- Python `X or Y` on two lists standing for sets (in their iteration
order): the first when non-empty, else the second. -/
def orNonempty (a b : List String) : List String := if a ≠ [] then a else b

/-- Python `needle in haystack` on strings. -/
def strContains (hay needle : String) : Bool :=
  normalizzatore.isSubstringOf needle.toList hay.toList

/-- The hint assembled by `validate_inputs` (`single_match.py`): the first five
known ids as examples, plus the fuzzy-match suggestions when any exist. -/
def hintFor (sample suggestions : List String) : String :=
  let hint := if sample ≠ [] then "Esempi presenti: " ++ pyListRepr sample ++ "." else ""
  if suggestions ≠ [] then
    if hint ≠ "" then hint ++ " Suggerimenti simili: " ++ pyListRepr suggestions
    else "Suggerimenti simili: " ++ pyListRepr suggestions
  else hint

/-- The not-found message for an unknown `user_id` (`validate_inputs`,
`single_match.py`), over the pool `cv_dataset_ids or cv_ids`. -/
def user_not_found_msg (user_id : String) (pool : List String) : String :=
  "USER_ID " ++ pyQuote user_id ++ " non trovato nel dataset CV. " ++
    hintFor (pool.take 5) (difflib.get_close_matches user_id pool 5 (2 / 5))

/-- The not-found message for an unknown `jd_id`. -/
def jd_not_found_msg (jd_id : String) (pool : List String) : String :=
  "JD_ID " ++ pyQuote jd_id ++ " non trovato nel dataset JD. " ++
    hintFor (pool.take 5) (difflib.get_close_matches jd_id pool 5 (2 / 5))

/-- `validate_inputs` (`single_match.py`): an id passes if it is present in
the embeddings table or in the normalized dataset; an absent id produces
`(False, message)` with example ids and close-match suggestions. -/
def validate_inputs (user_id jd_id : String)
    (cv_ids cv_dataset_ids jd_ids jd_dataset_ids : List String) : Bool × Option String :=
  if user_id ∉ cv_ids ∧ user_id ∉ cv_dataset_ids then
    (false, some (user_not_found_msg user_id (orNonempty cv_dataset_ids cv_ids)))
  else if jd_id ∉ jd_ids ∧ jd_id ∉ jd_dataset_ids then
    (false, some (jd_not_found_msg jd_id (orNonempty jd_dataset_ids jd_ids)))
  else (true, none)

/-- A row of the normalized CV dataset as consumed by the single-pair service
(`NaN` cells are `none`). -/
structure SMCvRow where
  user_id : String
  summary : Option String
  experience : Option String
  education : Option String
  skills_normalized : Option String
  languages_normalized : Option String
  years_of_experience : Option ℚ
  inferred_seniority : Option String
  tag_women : Option Bool
  tag_protected_category : Option Bool

/-- A row of the normalized JD dataset as consumed by the single-pair
service. -/
structure SMJdRow where
  jd_id : String
  title : Option String
  requirements_normalized : Option String
  nice_to_have_normalized : Option String
  constraints_seniority_normalized : Option String
  min_experience_years_normalized : Option ℚ

/-- `Config.SENIORITY_LEVELS` and `get_seniority_numeric`
(`single_match.py`): lowercase lookup, `0` for `NaN` or unknown. -/
def get_seniority_numeric (seniority : Option String) : ℕ :=
  match seniority with
  | none => 0
  | some s =>
    match normalizzatore.lookupBy [("junior", 1), ("mid", 2), ("senior", 3)] (pyLower s) with
    | some v => v
    | none => 0

/-- `extract_current_role` (`single_match.py`): the (non-empty) text before
the first `@`, stripped and lowercased; `''` when there is no `@` or nothing
before it. -/
def extract_current_role (experience_str : Option String) : String :=
  match experience_str with
  | none => ""
  | some s =>
    if s = "" then ""
    else
      let cs := s.toList
      if cs.any (fun c => c = '@') then
        let before := cs.takeWhile (fun c => c ≠ '@')
        if before ≠ [] then String.mk (pyLowerL (pyStripL before)) else ""
      else ""

/-- `re.findall(r'\w+', s)`: the maximal word-character runs (the accumulator
holds the current run reversed). -/
def wordTokensAux (current : List Char) : List Char → List (List Char)
  | [] => if current ≠ [] then [current.reverse] else []
  | c :: rest =>
    if normalizzatore.isWordChar c then wordTokensAux (c :: current) rest
    else if current ≠ [] then current.reverse :: wordTokensAux [] rest
    else wordTokensAux [] rest

/-- The stopword set of `compute_role_similarity` (`single_match.py`). -/
def STOPWORDS : Finset String :=
  {"a", "an", "the", "of", "in", "at", "for", "and", "or", "di", "e", "il", "la"}

/-- `compute_role_similarity` (`single_match.py`): Jaccard similarity of the
stopword-free word-token sets, plus the any-token-overlaps flag. -/
def compute_role_similarity (cv_role jd_title : String) : ℚ × ℕ :=
  if cv_role = "" ∨ jd_title = "" then (0, 0)
  else
    let cv_tokens := ((wordTokensAux [] (pyLowerL cv_role.toList)).map String.mk).toFinset \ STOPWORDS
    let jd_tokens := ((wordTokensAux [] (pyLowerL jd_title.toList)).map String.mk).toFinset \ STOPWORDS
    if cv_tokens = ∅ ∨ jd_tokens = ∅ then (0, 0)
    else
      let inter := (cv_tokens ∩ jd_tokens).card
      let union := (cv_tokens ∪ jd_tokens).card
      (if 0 < union then (inter : ℚ) / (union : ℚ) else 0, if 0 < inter then 1 else 0)

/-- The numeric/categorical features computed by `compute_features`
(`single_match.py`) for one (CV, JD) pair; the `_`-prefixed evidence lists of
the Python dict are recoverable from the same sets and are not separate
fields. -/
structure Features where
  cosine_similarity_raw : ℝ
  cosine_similarity_normalized : ℝ
  skill_overlap_core_abs : ℕ
  jd_requirements_count : ℕ
  skill_overlap_core_norm : ℚ
  skill_overlap_nice_abs : ℕ
  jd_nice_to_have_count : ℕ
  skill_overlap_nice_norm : ℚ
  skill_coverage_total : ℚ
  must_have_missing : ℤ
  years_experience_cv : ℚ
  years_required_jd : ℚ
  experience_gap : ℚ
  experience_meets_requirement : ℕ
  experience_penalty_soft : ℚ
  seniority_cv_level : ℕ
  seniority_jd_level : ℕ
  seniority_gap : ℤ
  seniority_match : ℕ
  seniority_mismatch_strong : ℕ
  seniority_underskilled : ℕ
  role_similarity_jaccard : ℚ
  role_token_match : ℕ
  role_coherent : ℕ
  cv_completeness_score : ℚ
  cv_skills_count : ℕ
  tag_women : ℕ
  tag_protected_category : ℕ
  dei_tag_count : ℕ
  dei_boost : ℚ

/-- `compute_features` (`single_match.py`) for the pair of rows found by the
id lookups; the cosine similarity is the precomputed raw value.  The JD years
come from `min_experience_years_normalized`, the column present in every
normalized dataset (the `in jd_row.index` fallbacks to the raw and legacy
columns fire only on pre-normalization datasets). -/
def compute_features (cosine_sim : ℝ) (cv_row : SMCvRow) (jd_row : SMJdRow) : Features :=
  let cv_skills := parse_skills_string cv_row.skills_normalized
  let jd_req_raw := parse_skills_string jd_row.requirements_normalized
  let jd_nice := parse_skills_string jd_row.nice_to_have_normalized
  let jd_req := filtered_requirements jd_req_raw
  let core_overlap := cv_skills ∩ jd_req
  let nice_overlap := cv_skills ∩ jd_nice
  let all_jd := jd_req ∪ jd_nice
  let all_overlap := cv_skills ∩ all_jd
  let cv_years : ℚ := match cv_row.years_of_experience with | none => 0 | some y => y
  let jd_years : ℚ := match jd_row.min_experience_years_normalized with | none => 0 | some y => y
  let gap := cv_years - jd_years
  let cv_level := get_seniority_numeric cv_row.inferred_seniority
  let jd_level := get_seniority_numeric jd_row.constraints_seniority_normalized
  let sen_gap : ℤ := (cv_level : ℤ) - (jd_level : ℤ)
  let cv_role := extract_current_role cv_row.experience
  let jd_title := match jd_row.title with | none => "" | some t => t
  let role := compute_role_similarity cv_role jd_title
  let has_summary := match cv_row.summary with | some s => if s ≠ "" then 1 else 0 | none => 0
  let has_exp := match cv_row.experience with | some s => if s ≠ "" then 1 else 0 | none => 0
  let has_edu := match cv_row.education with | some s => if s ≠ "" then 1 else 0 | none => 0
  let has_skills := match cv_row.skills_normalized with | some s => if s ≠ "" then 1 else 0 | none => 0
  let has_lang := match cv_row.languages_normalized with | some s => if s ≠ "" then 1 else 0 | none => 0
  let tag_w := match cv_row.tag_women with | some b => if b then 1 else 0 | none => 0
  let tag_p := match cv_row.tag_protected_category with | some b => if b then 1 else 0 | none => 0
  { cosine_similarity_raw := cosine_sim
    cosine_similarity_normalized := cosine_sim
    skill_overlap_core_abs := core_overlap.card
    jd_requirements_count := jd_req.card
    skill_overlap_core_norm := singleMatch.skill_overlap_core_norm cv_skills jd_req_raw
    skill_overlap_nice_abs := nice_overlap.card
    jd_nice_to_have_count := jd_nice.card
    skill_overlap_nice_norm :=
      if jd_nice.Nonempty then (nice_overlap.card : ℚ) / (jd_nice.card : ℚ) else 0
    skill_coverage_total :=
      if all_jd.Nonempty then (all_overlap.card : ℚ) / (all_jd.card : ℚ) else 0
    must_have_missing := (jd_req.card : ℤ) - (core_overlap.card : ℤ)
    years_experience_cv := cv_years
    years_required_jd := jd_years
    experience_gap := gap
    experience_meets_requirement := if jd_years ≤ cv_years then 1 else 0
    experience_penalty_soft := if gap < 0 then |gap| * (1 / 10) else 0
    seniority_cv_level := cv_level
    seniority_jd_level := jd_level
    seniority_gap := sen_gap
    seniority_match := if cv_level = jd_level then 1 else 0
    seniority_mismatch_strong := if 2 ≤ |sen_gap| then 1 else 0
    seniority_underskilled := if cv_level < jd_level then 1 else 0
    role_similarity_jaccard := role.1
    role_token_match := role.2
    role_coherent := if 1 / 5 < role.1 then 1 else 0
    cv_completeness_score :=
      ((has_summary + has_exp + has_edu + has_skills + has_lang : ℕ) : ℚ) / 5
    cv_skills_count := cv_skills.card
    tag_women := tag_w
    tag_protected_category := tag_p
    dei_tag_count := tag_w + tag_p
    dei_boost := ((tag_w + tag_p : ℕ) : ℚ) * (1 / 20) }

/-- The feature dictionary `features.get(feat, 0)` as a total real-valued
map over feature names (absent names give `0`). -/
def featureVal (f : Features) : String → ℝ
  | "cosine_similarity_normalized" => f.cosine_similarity_normalized
  | "skill_overlap_core_norm" => (f.skill_overlap_core_norm : ℝ)
  | "skill_coverage_total" => (f.skill_coverage_total : ℝ)
  | "skill_overlap_nice_norm" => (f.skill_overlap_nice_norm : ℝ)
  | "experience_meets_requirement" => (f.experience_meets_requirement : ℝ)
  | "seniority_match" => (f.seniority_match : ℝ)
  | "role_similarity_jaccard" => (f.role_similarity_jaccard : ℝ)
  | "role_coherent" => (f.role_coherent : ℝ)
  | "must_have_missing" => (f.must_have_missing : ℝ)
  | "experience_penalty_soft" => (f.experience_penalty_soft : ℝ)
  | "seniority_mismatch_strong" => (f.seniority_mismatch_strong : ℝ)
  | "seniority_underskilled" => (f.seniority_underskilled : ℝ)
  | "dei_boost" => (f.dei_boost : ℝ)
  | _ => 0

/-- Python `round(x)` on a real (banker's rounding). -/
noncomputable def pyRoundHalfEvenR (x : ℝ) : ℤ :=
  let f := ⌊x⌋
  if x - f < 1 / 2 then f
  else if x - f > 1 / 2 then f + 1
  else if f % 2 = 0 then f else f + 1

/-- Python `round(x, 4)` on a real. -/
noncomputable def pyRound4R (x : ℝ) : ℝ := (pyRoundHalfEvenR (x * 10000) : ℝ) / 10000

/-- The score dictionary built by `compute_score` (`single_match.py`). -/
structure ScoreResult where
  linear_score_raw : ℝ
  linear_score_normalized : ℝ
  dei_boost : ℝ
  final_score : ℝ
  contributions : String → ℝ

/-- `compute_score` (`single_match.py`): the weighted sum over the v1.2
weights, the DEI boost, and `max(0, min(1, score + dei_boost))`, every
reported value rounded to four decimals. -/
noncomputable def compute_score (f : Features) : ScoreResult :=
  let score := (WEIGHTS.map (fun fw => (fw.2 : ℝ) * featureVal f fw.1)).sum
  let dei := featureVal f "dei_boost"
  { linear_score_raw := pyRound4R score
    linear_score_normalized := pyRound4R score
    dei_boost := pyRound4R dei
    final_score := pyRound4R (compute_score_final (featureVal f))
    contributions := fun name =>
      match normalizzatore.lookupBy WEIGHTS name with
      | some w => pyRound4R ((w : ℝ) * featureVal f name)
      | none => 0 }

/-- The fields of the response JSON built by `build_json` (`single_match.py`)
that carry identity and scoring (the metadata timestamp, the evidence lists
and the full XAI reason/risk lists are presentation data assembled from the
same features). -/
structure SMOutput where
  jd_id : String
  jd_title : String
  user_id : String
  rank : ℕ
  score : ℝ
  final_score : ℝ
  xai_quality_label : String
  quality_assessment_cosine : ℝ
  quality_assessment_label : String

/-- `build_json` (`single_match.py`): the candidate block names exactly the
requested `user_id` and `jd_id`; `rank` is the constant `1`; the XAI block
labels by `final_score`, the quality assessment by the raw cosine. -/
noncomputable def build_json (user_id jd_id : String) (f : Features)
    (score : ScoreResult) (jd_row : SMJdRow) : SMOutput :=
  { jd_id := jd_id
    jd_title := match jd_row.title with | none => "" | some t => t
    user_id := user_id
    rank := 1
    score := score.final_score
    final_score := score.final_score
    xai_quality_label := build_xai_quality_label score.final_score
    quality_assessment_cosine := f.cosine_similarity_raw
    quality_assessment_label := get_quality_label f.cosine_similarity_raw }

/-- The Python exceptions the service can raise. -/
inductive PyErr where
  | valueError (msg : String)
  | keyError (key : String)
  | indexError

/-- Python `str(e)` for the modelled exceptions (`str` of a `KeyError` is the
`repr` of the missing key). -/
def pyStr : PyErr → String
  | .valueError msg => msg
  | .keyError key => pyQuote key
  | .indexError => "single positional indexer is out-of-bounds"

/-- All data loaded by `load_all_data` (`single_match.py`): the id columns of
the two embedding tables, the embedding dictionaries, and the two normalized
datasets. -/
structure MatchData where
  cv_emb_ids : List String
  cv_embeddings : List (String × List ℝ)
  jd_emb_ids : List String
  jd_embeddings : List (String × List ℝ)
  cv_data : List SMCvRow
  jd_data : List SMJdRow

/-- `compare_cv_with_jd` (`single_match.py`): validate both ids (raising
`ValueError` on failure), look both embeddings up in the dictionaries (a
missing key raises `KeyError`), compute the cosine, then features, score and
the output JSON from the rows with the requested ids (a row lookup miss is
pandas' `.iloc[0]` `IndexError`). -/
noncomputable def compare_cv_with_jd (data : MatchData) (user_id jd_id : String) :
    Except PyErr SMOutput :=
  match validate_inputs user_id jd_id data.cv_emb_ids (data.cv_data.map (fun r => r.user_id))
      data.jd_emb_ids (data.jd_data.map (fun r => r.jd_id)) with
  | (false, msg) => .error (.valueError (msg.getD ""))
  | (true, _) =>
    match normalizzatore.lookupBy data.cv_embeddings user_id with
    | none => .error (.keyError user_id)
    | some cv_emb =>
      match normalizzatore.lookupBy data.jd_embeddings jd_id with
      | none => .error (.keyError jd_id)
      | some jd_emb =>
        match data.cv_data.find? (fun r => r.user_id == user_id) with
        | none => .error .indexError
        | some cv_row =>
          match data.jd_data.find? (fun r => r.jd_id == jd_id) with
          | none => .error .indexError
          | some jd_row =>
            let cosine := cosine_similarity cv_emb jd_emb
            let features := compute_features cosine cv_row jd_row
            let score := compute_score features
            .ok (build_json user_id jd_id features score jd_row)

/-- An HTTP response of the `/api/match_cv_jd` endpoint. -/
inductive HTTPResult where
  | ok (body : SMOutput)
  | notFound (detail : String)
  | internalError (detail : String)

/-- The `match_cv_jd` endpoint (`single_match.py`): `ValueError` becomes a
404 with the message, any other exception a 500 prefixed with
`"Matcher internal error: "`. -/
noncomputable def match_cv_jd (data : MatchData) (user_id jd_id : String) : HTTPResult :=
  match compare_cv_with_jd data user_id jd_id with
  | .ok result => .ok result
  | .error (.valueError msg) => .notFound msg
  | .error e => .internalError ("Matcher internal error: " ++ pyStr e)

/-- The suggestion pool `cv_dataset_ids or cv_ids` of `validate_inputs`. -/
def cvPool (data : MatchData) : List String :=
  orNonempty (data.cv_data.map (fun r => r.user_id)) data.cv_emb_ids

/-- The suggestion pool `jd_dataset_ids or jd_ids` of `validate_inputs`. -/
def jdPool (data : MatchData) : List String :=
  orNonempty (data.jd_data.map (fun r => r.jd_id)) data.jd_emb_ids

/-- A small concrete service state: one CV (`user_001`) and one JD (`jd_001`),
both with embeddings and dataset rows. -/
def c8Data : MatchData :=
  ⟨["user_001"], [("user_001", [1])], ["jd_001"], [("jd_001", [1])],
    [⟨"user_001", none, none, none, none, none, none, none, none, none⟩],
    [⟨"jd_001", none, none, none, none, none⟩]⟩

end singleMatch

/-- C10: `parse_skills_string` lowercases each comma-separated token and then
strips every leading character in the class star / `e` / whitespace, so any
skill whose lowercase form begins with `e` is truncated: `"Excel"` becomes the
set containing only `"xcel"` and `"English"` the set containing only
`"nglish"`, identically in the batch feature engine and in the single-pair
service. -/
theorem C10_parse_skills_truncates_leading_e :
    reranking.parse_skills_string (some "Excel") = {"xcel"} ∧
    reranking.parse_skills_string (some "English") = {"nglish"} ∧
    singleMatch.parse_skills_string (some "Excel") = {"xcel"} ∧
    singleMatch.parse_skills_string (some "English") = {"nglish"} ∧
    (∀ cs : List Char, reranking.stripLeadingJunk ('e' :: cs) = reranking.stripLeadingJunk cs) ∧
    (∀ cs : List Char, reranking.stripLeadingJunk ('*' :: cs) = reranking.stripLeadingJunk cs) ∧
    (∀ cs : List Char, reranking.stripLeadingJunk (' ' :: cs) = reranking.stripLeadingJunk cs) ∧
    (∀ s : Option String,
      reranking.parse_skills_string s = singleMatch.parse_skills_string s) := by
  have hstrip : reranking.stripLeadingJunk = singleMatch.stripLeadingJunk := by
    funext cs
    induction cs with
    | nil => rfl
    | cons c cs ih => simp [reranking.stripLeadingJunk, singleMatch.stripLeadingJunk, ih]
  refine ⟨by decide, by decide, by decide, by decide, ?_, ?_, ?_, ?_⟩
  · intro cs; simp [reranking.stripLeadingJunk]
  · intro cs; simp [reranking.stripLeadingJunk]
  · intro cs; simp [reranking.stripLeadingJunk]
  · intro s
    simp only [reranking.parse_skills_string, singleMatch.parse_skills_string, hstrip]

/-- C7 counterexample: with CV skills `{java}` and JD requirements `{python}`
the core-overlap ratio is `0` although the requirement set is non-empty, so
the ratio is not `0` *exactly* when the requirement set is empty. -/
theorem C7_counterexample_disjoint_nonempty :
    reranking.skill_overlap_core_norm
        (reranking.parse_skills_string (some "java"))
        (reranking.parse_skills_string (some "python")) = 0 ∧
    reranking.parse_skills_string (some "python") ≠ ∅ := by
  have h1 : reranking.parse_skills_string (some "java") ∩
      reranking.parse_skills_string (some "python") = ∅ := by decide
  have h2 : (reranking.parse_skills_string (some "python")).Nonempty :=
    ⟨"python", by decide⟩
  refine ⟨?_, Finset.nonempty_iff_ne_empty.mp h2⟩
  simp [reranking.skill_overlap_core_norm, h2, h1]

/-- C7 (amended): the core skill-overlap ratio is `0` whenever the JD
requirement set is empty, regardless of the CV skill set; in general it is `0`
iff the requirement set is empty or disjoint from the CV skills.  In the
single-pair service the same holds for the years-pattern-filtered requirement
set. -/
theorem C7_skill_overlap_zero_iff (cv req : Finset String) :
    (req = ∅ → reranking.skill_overlap_core_norm cv req = 0) ∧
    (reranking.skill_overlap_core_norm cv req = 0 ↔ req = ∅ ∨ cv ∩ req = ∅) ∧
    (singleMatch.filtered_requirements req = ∅ →
      singleMatch.skill_overlap_core_norm cv req = 0) ∧
    (singleMatch.skill_overlap_core_norm cv req = 0 ↔
      singleMatch.filtered_requirements req = ∅ ∨
        cv ∩ singleMatch.filtered_requirements req = ∅) := by
  have key : ∀ a b : Finset String,
      ((if b.Nonempty then ((a ∩ b).card : ℚ) / (b.card : ℚ) else 0) = 0 ↔
        b = ∅ ∨ a ∩ b = ∅) := by
    intro a b
    by_cases hb : b.Nonempty
    · have hbne : b ≠ ∅ := Finset.nonempty_iff_ne_empty.mp hb
      have hcard : (b.card : ℚ) ≠ 0 := by
        exact_mod_cast Finset.card_ne_zero_of_mem hb.choose_spec
      simp only [if_pos hb, div_eq_zero_iff, Nat.cast_eq_zero, hcard, or_false]
      constructor
      · intro h
        exact Or.inr (Finset.card_eq_zero.mp h)
      · rintro (h | h)
        · exact absurd h hbne
        · exact Finset.card_eq_zero.mpr h
    · have hb' : b = ∅ := Finset.not_nonempty_iff_eq_empty.mp hb
      simp [if_neg hb, hb']
  refine ⟨?_, ?_, ?_, ?_⟩
  · intro h
    simp [reranking.skill_overlap_core_norm, h]
  · simpa [reranking.skill_overlap_core_norm] using key cv req
  · intro h
    simp [singleMatch.skill_overlap_core_norm, h]
  · simpa [singleMatch.skill_overlap_core_norm] using key cv (singleMatch.filtered_requirements req)

/-- C7 witness: the amended statement evaluated at CV skills `{python, sql}`
and an empty requirement set. -/
theorem C7_skill_overlap_zero_iff_witness :
    reranking.skill_overlap_core_norm {"python", "sql"} ∅ = 0 ∧
    (reranking.skill_overlap_core_norm {"python", "sql"} ∅ = 0 ↔
      (∅ : Finset String) = ∅ ∨ {"python", "sql"} ∩ (∅ : Finset String) = ∅) :=
  ⟨(C7_skill_overlap_zero_iff {"python", "sql"} ∅).1 rfl,
   (C7_skill_overlap_zero_iff {"python", "sql"} ∅).2.1⟩

/-- C5 counterexample: at `final_score = 0.45` the batch XAI path
(`build_xai_company`, `xai.py`) labels the candidate EXCELLENT, although
`0.3 ≤ 0.45 < 0.5`, where the claim demands GOOD. -/
theorem C5_counterexample_company_threshold :
    xai.build_xai_company_quality_label ((9 : ℚ) / 20) = "EXCELLENT" ∧
    (3 : ℚ) / 10 ≤ (9 : ℚ) / 20 ∧ (9 : ℚ) / 20 < (1 : ℚ) / 2 ∧
    "EXCELLENT" ≠ "GOOD" := by
  refine ⟨?_, by norm_num, by norm_num, by decide⟩
  simp [xai.build_xai_company_quality_label]

/-- C5 (amended): the single-match path (`build_xai` and `get_quality_label`
in `single_match.py`) labels EXCELLENT for `final_score ≥ 0.5`, GOOD for
`0.3 ≤ final_score < 0.5` and WEAK otherwise; the batch XAI path
(`build_xai_company`, `xai.py`) uses the lower thresholds `0.45`/`0.20`
instead. -/
theorem C5_quality_label_thresholds (s : ℚ) :
    (s ≥ 1 / 2 → singleMatch.build_xai_quality_label s = "EXCELLENT") ∧
    (3 / 10 ≤ s → s < 1 / 2 → singleMatch.build_xai_quality_label s = "GOOD") ∧
    (s < 3 / 10 → singleMatch.build_xai_quality_label s = "WEAK") ∧
    singleMatch.get_quality_label s = singleMatch.build_xai_quality_label s ∧
    (s ≥ 9 / 20 → xai.build_xai_company_quality_label s = "EXCELLENT") ∧
    (1 / 5 ≤ s → s < 9 / 20 → xai.build_xai_company_quality_label s = "GOOD") ∧
    (s < 1 / 5 → xai.build_xai_company_quality_label s = "WEAK") := by
  refine ⟨?_, ?_, ?_, rfl, ?_, ?_, ?_⟩
  · intro h
    unfold singleMatch.build_xai_quality_label
    rw [if_pos (by linarith)]
  · intro h1 h2
    unfold singleMatch.build_xai_quality_label
    rw [if_neg (by simp only [ge_iff_le, not_le]; linarith),
      if_pos (by linarith)]
  · intro h
    unfold singleMatch.build_xai_quality_label
    rw [if_neg (by simp only [ge_iff_le, not_le]; linarith),
      if_neg (by simp only [ge_iff_le, not_le]; linarith)]
  · intro h
    unfold xai.build_xai_company_quality_label
    rw [if_pos (by linarith)]
  · intro h1 h2
    unfold xai.build_xai_company_quality_label
    rw [if_neg (by simp only [ge_iff_le, not_le]; linarith),
      if_pos (by linarith)]
  · intro h
    unfold xai.build_xai_company_quality_label
    rw [if_neg (by simp only [ge_iff_le, not_le]; linarith),
      if_neg (by simp only [ge_iff_le, not_le]; linarith)]

/-- C5 witness: the amended threshold table evaluated at `0.6` (single path)
and `0.45` (batch path). -/
theorem C5_quality_label_thresholds_witness :
    singleMatch.build_xai_quality_label ((6 : ℚ) / 10) = "EXCELLENT" ∧
    xai.build_xai_company_quality_label ((9 : ℚ) / 20) = "EXCELLENT" :=
  ⟨(C5_quality_label_thresholds ((6 : ℚ) / 10)).1 (by norm_num),
   (C5_quality_label_thresholds ((9 : ℚ) / 20)).2.2.2.2.1 (by norm_num)⟩

lemma foldl_min_le_init (l : List ℚ) (a : ℚ) : l.foldl min a ≤ a := by
  induction l generalizing a with
  | nil => exact le_refl a
  | cons x l ih => exact le_trans (ih (min a x)) (min_le_left a x)

lemma foldl_min_le_mem (l : List ℚ) (a x : ℚ) (h : x ∈ l) : l.foldl min a ≤ x := by
  induction l generalizing a with
  | nil => cases h
  | cons y l ih =>
    rcases List.mem_cons.mp h with rfl | hx
    · exact le_trans (foldl_min_le_init l (min a x)) (min_le_right a x)
    · exact ih (min a y) hx

lemma init_le_foldl_max (l : List ℚ) (a : ℚ) : a ≤ l.foldl max a := by
  induction l generalizing a with
  | nil => exact le_refl a
  | cons x l ih => exact le_trans (le_max_left a x) (ih (max a x))

lemma mem_le_foldl_max (l : List ℚ) (a x : ℚ) (h : x ∈ l) : x ≤ l.foldl max a := by
  induction l generalizing a with
  | nil => cases h
  | cons y l ih =>
    rcases List.mem_cons.mp h with rfl | hx
    · exact le_trans (le_max_right a x) (init_le_foldl_max l (max a x))
    · exact ih (max a y) hx

lemma listMin_le_mem {xs : List ℚ} {x : ℚ} (h : x ∈ xs) : reranking.listMin xs ≤ x := by
  cases xs with
  | nil => cases h
  | cons y l =>
    rcases List.mem_cons.mp h with rfl | hx
    · exact foldl_min_le_init l x
    · exact foldl_min_le_mem l y x hx

lemma mem_le_listMax {xs : List ℚ} {x : ℚ} (h : x ∈ xs) : x ≤ reranking.listMax xs := by
  cases xs with
  | nil => cases h
  | cons y l =>
    rcases List.mem_cons.mp h with rfl | hx
    · exact init_le_foldl_max l x
    · exact mem_le_foldl_max l y x hx

lemma foldl_min_mem (l : List ℚ) (a : ℚ) : l.foldl min a = a ∨ l.foldl min a ∈ l := by
  induction l generalizing a with
  | nil => exact Or.inl rfl
  | cons x l ih =>
    rcases ih (min a x) with h | h
    · rcases min_choice a x with hm | hm
      · exact Or.inl (by rw [List.foldl_cons, h, hm])
      · exact Or.inr (by rw [List.foldl_cons, h, hm]; exact List.mem_cons_self x l)
    · exact Or.inr (List.mem_cons_of_mem x h)

lemma foldl_max_mem (l : List ℚ) (a : ℚ) : l.foldl max a = a ∨ l.foldl max a ∈ l := by
  induction l generalizing a with
  | nil => exact Or.inl rfl
  | cons x l ih =>
    rcases ih (max a x) with h | h
    · rcases max_choice a x with hm | hm
      · exact Or.inl (by rw [List.foldl_cons, h, hm])
      · exact Or.inr (by rw [List.foldl_cons, h, hm]; exact List.mem_cons_self x l)
    · exact Or.inr (List.mem_cons_of_mem x h)

lemma listMin_mem {xs : List ℚ} (h : xs ≠ []) : reranking.listMin xs ∈ xs := by
  cases xs with
  | nil => exact absurd rfl h
  | cons y l =>
    rcases foldl_min_mem l y with h | h
    · rw [reranking.listMin, h]; exact List.mem_cons_self y l
    · exact List.mem_cons_of_mem y h

lemma listMax_mem {xs : List ℚ} (h : xs ≠ []) : reranking.listMax xs ∈ xs := by
  cases xs with
  | nil => exact absurd rfl h
  | cons y l =>
    rcases foldl_max_mem l y with h | h
    · rw [reranking.listMax, h]; exact List.mem_cons_self y l
    · exact List.mem_cons_of_mem y h

lemma foldl_min_map_mono (f : ℚ → ℚ) (hf : Monotone f) (l : List ℚ) (a : ℚ) :
    (l.map f).foldl min (f a) = f (l.foldl min a) := by
  induction l generalizing a with
  | nil => rfl
  | cons x l ih =>
    simp only [List.map_cons, List.foldl_cons]
    rw [← hf.map_min, ih]

lemma foldl_max_map_mono (f : ℚ → ℚ) (hf : Monotone f) (l : List ℚ) (a : ℚ) :
    (l.map f).foldl max (f a) = f (l.foldl max a) := by
  induction l generalizing a with
  | nil => rfl
  | cons x l ih =>
    simp only [List.map_cons, List.foldl_cons]
    rw [← hf.map_max, ih]

lemma listMin_map_mono (f : ℚ → ℚ) (hf : Monotone f) (x : ℚ) (l : List ℚ) :
    reranking.listMin ((x :: l).map f) = f (reranking.listMin (x :: l)) := by
  simp only [List.map_cons, reranking.listMin]
  exact foldl_min_map_mono f hf l x

lemma listMax_map_mono (f : ℚ → ℚ) (hf : Monotone f) (x : ℚ) (l : List ℚ) :
    reranking.listMax ((x :: l).map f) = f (reranking.listMax (x :: l)) := by
  simp only [List.map_cons, reranking.listMax]
  exact foldl_max_map_mono f hf l x

/-- C3: per-JD-group min-max normalization (used both on raw cosine similarity
in `compute_semantic_features` and on the raw linear score in
`compute_linear_score`) is one and the same rule, is idempotent, returns
exactly `0.5` for every member of an all-equal group, and on a non-degenerate
group acts as a strictly increasing affine map whose image has minimum `0` and
maximum `1` inside `[0, 1]`. -/
theorem C3_minmax_normalization (xs : List ℚ) :
    reranking.normalize_group xs = reranking.normalize_within_group xs ∧
    reranking.normalize_within_group (reranking.normalize_within_group xs) =
      reranking.normalize_within_group xs ∧
    (∀ c : ℚ, (∀ x ∈ xs, x = c) →
      reranking.normalize_within_group xs = xs.map (fun _ => 1 / 2)) ∧
    (reranking.listMax xs ≠ reranking.listMin xs →
      ∃ a b : ℚ, 0 < a ∧
        reranking.normalize_within_group xs = xs.map (fun x => a * x + b) ∧
        reranking.listMin (reranking.normalize_within_group xs) = 0 ∧
        reranking.listMax (reranking.normalize_within_group xs) = 1 ∧
        ∀ y ∈ reranking.normalize_within_group xs, 0 ≤ y ∧ y ≤ 1) := by
  have norm_of_eq : ∀ g : List ℚ, reranking.listMax g = reranking.listMin g →
      reranking.normalize_within_group g = g.map (fun _ => 1 / 2) :=
    fun g h => if_pos h
  have norm_of_ne : ∀ g : List ℚ, reranking.listMax g ≠ reranking.listMin g →
      reranking.normalize_within_group g =
        g.map (fun x =>
          (x - reranking.listMin g) / (reranking.listMax g - reranking.listMin g)) :=
    fun g h => if_neg h
  have hsame : reranking.normalize_group = reranking.normalize_within_group := by
    funext g; rfl
  have nondeg : reranking.listMax xs ≠ reranking.listMin xs →
      ∃ a b : ℚ, 0 < a ∧
        reranking.normalize_within_group xs = xs.map (fun x => a * x + b) ∧
        reranking.listMin (reranking.normalize_within_group xs) = 0 ∧
        reranking.listMax (reranking.normalize_within_group xs) = 1 ∧
        ∀ y ∈ reranking.normalize_within_group xs, 0 ≤ y ∧ y ≤ 1 := by
    intro hMm
    have hne : xs ≠ [] := by
      intro h; subst h; exact hMm rfl
    have hmM : reranking.listMin xs < reranking.listMax xs :=
      lt_of_le_of_ne (listMin_le_mem (listMax_mem hne)) (fun h => hMm h.symm)
    have hd : (0 : ℚ) < reranking.listMax xs - reranking.listMin xs := by linarith
    have hform := norm_of_ne xs hMm
    have hmono : Monotone (fun x : ℚ =>
        (x - reranking.listMin xs) / (reranking.listMax xs - reranking.listMin xs)) := by
      intro u v huv
      exact (div_le_div_iff_of_pos_right hd).mpr (by linarith)
    refine ⟨1 / (reranking.listMax xs - reranking.listMin xs),
      -reranking.listMin xs / (reranking.listMax xs - reranking.listMin xs),
      by positivity, ?_, ?_, ?_, ?_⟩
    · rw [hform]
      congr 1
      funext x
      field_simp
      ring
    · cases xs with
      | nil => exact absurd rfl hne
      | cons x l =>
        rw [hform, listMin_map_mono _ hmono x l, sub_self, zero_div]
    · cases xs with
      | nil => exact absurd rfl hne
      | cons x l =>
        rw [hform, listMax_map_mono _ hmono x l, div_self (ne_of_gt hd)]
    · intro y hy
      rw [hform] at hy
      obtain ⟨x, hx, rfl⟩ := List.mem_map.mp hy
      constructor
      · exact div_nonneg (by linarith [listMin_le_mem hx]) (le_of_lt hd)
      · rw [div_le_one hd]
        linarith [mem_le_listMax hx]
  have idem : reranking.normalize_within_group (reranking.normalize_within_group xs) =
      reranking.normalize_within_group xs := by
    by_cases hMm : reranking.listMax xs = reranking.listMin xs
    · cases xs with
      | nil => rfl
      | cons x l =>
        rw [norm_of_eq _ hMm]
        have hmin : reranking.listMin ((x :: l).map (fun _ => (1 : ℚ) / 2)) = 1 / 2 :=
          listMin_map_mono (fun _ => 1 / 2) monotone_const x l
        have hmax : reranking.listMax ((x :: l).map (fun _ => (1 : ℚ) / 2)) = 1 / 2 :=
          listMax_map_mono (fun _ => 1 / 2) monotone_const x l
        rw [norm_of_eq _ (by rw [hmin, hmax]), List.map_map]
        rfl
    · obtain ⟨a, b, ha, hmap, hmin0, hmax1, hbound⟩ := nondeg hMm
      have h2 : reranking.listMax (reranking.normalize_within_group xs) ≠
          reranking.listMin (reranking.normalize_within_group xs) := by
        rw [hmax1, hmin0]; exact one_ne_zero
      rw [norm_of_ne _ h2, hmin0, hmax1]
      have hid : (fun y : ℚ => (y - 0) / (1 - 0)) = id := by
        funext y; simp
      rw [hid, List.map_id]
  have alleq : ∀ c : ℚ, (∀ x ∈ xs, x = c) →
      reranking.normalize_within_group xs = xs.map (fun _ => 1 / 2) := by
    intro c hc
    cases xs with
    | nil => rfl
    | cons x l =>
      refine norm_of_eq _ ?_
      rw [hc _ (listMax_mem (List.cons_ne_nil x l)), hc _ (listMin_mem (List.cons_ne_nil x l))]
  exact ⟨congrFun hsame xs, idem, alleq, nondeg⟩

/-- C3 witness: the normalization rule at the degenerate group
`[0.42, 0.42, 0.42]` and idempotence at the group `[1, 3]`. -/
theorem C3_minmax_normalization_witness :
    reranking.normalize_within_group [(42 : ℚ) / 100, 42 / 100, 42 / 100] =
      [(42 : ℚ) / 100, 42 / 100, 42 / 100].map (fun _ => 1 / 2) ∧
    reranking.normalize_within_group (reranking.normalize_within_group [(1 : ℚ), 3]) =
      reranking.normalize_within_group [(1 : ℚ), 3] :=
  ⟨(C3_minmax_normalization [(42 : ℚ) / 100, 42 / 100, 42 / 100]).2.2.1 (42 / 100)
      (by intro x hx; fin_cases hx <;> rfl),
   (C3_minmax_normalization [(1 : ℚ), 3]).2.1⟩

lemma prec_trans {s : List ℚ} {i j k : Fin s.length}
    (h1 : s.get j < s.get k ∨ (s.get k = s.get j ∧ k < j))
    (h2 : s.get i < s.get j ∨ (s.get j = s.get i ∧ j < i)) :
    s.get i < s.get k ∨ (s.get k = s.get i ∧ k < i) := by
  rcases h1 with h1 | ⟨h1e, h1l⟩
  · rcases h2 with h2 | ⟨h2e, _⟩
    · exact Or.inl (lt_trans h2 h1)
    · exact Or.inl (h2e ▸ h1)
  · rcases h2 with h2 | ⟨h2e, h2l⟩
    · exact Or.inl (h1e ▸ h2)
    · exact Or.inr ⟨h1e.trans h2e, lt_trans h1l h2l⟩

lemma prec_irrefl {s : List ℚ} (i : Fin s.length) :
    ¬ (s.get i < s.get i ∨ (s.get i = s.get i ∧ i < i)) := by
  rintro (h | ⟨_, h⟩)
  · exact lt_irrefl _ h
  · exact lt_irrefl _ h

/-- Pandas stable descending rank is strictly monotone along the stable
descending order: if `j` strictly precedes `i` then `rank j < rank i`. -/
lemma rankIdx_lt_of_prec {s : List ℚ} {i j : Fin s.length}
    (h : s.get i < s.get j ∨ (s.get j = s.get i ∧ j < i)) :
    reranking.rankIdx s j < reranking.rankIdx s i := by
  unfold reranking.rankIdx
  have hsub : (Finset.univ.filter
      (fun k => s.get j < s.get k ∨ (s.get k = s.get j ∧ k < j))) ⊂
        (Finset.univ.filter
      (fun k => s.get i < s.get k ∨ (s.get k = s.get i ∧ k < i))) := by
    rw [Finset.ssubset_iff_of_subset]
    · refine ⟨j, ?_, ?_⟩
      · rw [Finset.mem_filter]
        exact ⟨Finset.mem_univ j, h⟩
      · intro hj
        rw [Finset.mem_filter] at hj
        exact prec_irrefl j hj.2
    · intro k hk
      rw [Finset.mem_filter] at hk ⊢
      exact ⟨Finset.mem_univ k, prec_trans hk.2 h⟩
  have := Finset.card_lt_card hsub
  omega

lemma prec_total {s : List ℚ} {i j : Fin s.length} (hne : i ≠ j) :
    (s.get i < s.get j ∨ (s.get j = s.get i ∧ j < i)) ∨
    (s.get j < s.get i ∨ (s.get i = s.get j ∧ i < j)) := by
  rcases lt_trichotomy (s.get i) (s.get j) with h | h | h
  · exact Or.inl (Or.inl h)
  · rcases lt_or_gt_of_ne (Fin.val_ne_of_ne hne) with hij | hij
    · exact Or.inr (Or.inr ⟨h, hij⟩)
    · exact Or.inl (Or.inr ⟨h.symm, hij⟩)
  · exact Or.inr (Or.inl h)

lemma rankIdx_injective (s : List ℚ) {i j : Fin s.length} (hne : i ≠ j) :
    reranking.rankIdx s i ≠ reranking.rankIdx s j := by
  rcases prec_total hne with h | h
  · exact ne_of_gt (rankIdx_lt_of_prec h)
  · exact ne_of_lt (rankIdx_lt_of_prec h)

lemma rankIdx_le_length (s : List ℚ) (i : Fin s.length) :
    reranking.rankIdx s i ≤ s.length := by
  unfold reranking.rankIdx
  have hsub : (Finset.univ.filter
      (fun k => s.get i < s.get k ∨ (s.get k = s.get i ∧ k < i))) ⊆
        Finset.univ.erase i := by
    intro k hk
    simp only [Finset.mem_filter, Finset.mem_univ, true_and] at hk
    rw [Finset.mem_erase]
    refine ⟨?_, Finset.mem_univ k⟩
    intro hki
    subst hki
    exact prec_irrefl k hk
  have h1 := Finset.card_le_card hsub
  have h2 : (Finset.univ.erase i).card = s.length - 1 := by
    rw [Finset.card_erase_of_mem (Finset.mem_univ i), Finset.card_univ, Fintype.card_fin]
  have h3 : 0 < s.length := i.pos
  omega

lemma rankIdx_exists_unique (s : List ℚ) (k : ℕ) (h1 : 1 ≤ k) (h2 : k ≤ s.length) :
    ∃! i : Fin s.length, reranking.rankIdx s i = k := by
  have hpos : 0 < s.length := by omega
  let g : Fin s.length → Fin s.length := fun i =>
    ⟨reranking.rankIdx s i - 1, by
      have := rankIdx_le_length s i
      have : 1 ≤ reranking.rankIdx s i := Nat.le_add_right 1 _
      omega⟩
  have hg : Function.Injective g := by
    intro i j hij
    by_contra hne
    have hval : reranking.rankIdx s i - 1 = reranking.rankIdx s j - 1 :=
      congrArg Fin.val hij
    have hi1 : 1 ≤ reranking.rankIdx s i := Nat.le_add_right 1 _
    have hj1 : 1 ≤ reranking.rankIdx s j := Nat.le_add_right 1 _
    exact rankIdx_injective s hne (by omega)
  have hsurj : Function.Surjective g := Finite.injective_iff_surjective.mp hg
  obtain ⟨i, hi⟩ := hsurj ⟨k - 1, by omega⟩
  have hival : reranking.rankIdx s i - 1 = k - 1 := congrArg Fin.val hi
  have hi1 : 1 ≤ reranking.rankIdx s i := Nat.le_add_right 1 _
  refine ⟨i, by omega, ?_⟩
  intro j hj
  by_contra hne
  exact rankIdx_injective s hne (by omega)

lemma count_ofFn {n : ℕ} (g : Fin n → ℕ) (k : ℕ) :
    (List.ofFn g).count k = (Finset.univ.filter (fun i => g i = k)).card := by
  induction n with
  | zero => simp
  | succ m ih =>
    rw [List.ofFn_succ, List.count_cons, ih (fun i => g i.succ),
      Fin.card_filter_univ_succ' (fun i => g i = k)]
    simp only [beq_iff_eq]
    by_cases h : g 0 = k <;> simp [h, Nat.add_comm]

lemma rankFirstDesc_count (s : List ℚ) (k : ℕ) (h1 : 1 ≤ k) (h2 : k ≤ s.length) :
    (reranking.rankFirstDesc s).count k = 1 := by
  rw [reranking.rankFirstDesc, count_ofFn]
  obtain ⟨i, hi, huniq⟩ := rankIdx_exists_unique s k h1 h2
  rw [Finset.card_eq_one]
  refine ⟨i, ?_⟩
  ext j
  simp only [Finset.mem_filter, Finset.mem_univ, true_and, Finset.mem_singleton]
  constructor
  · exact fun hj => huniq j hj
  · rintro rfl; exact hi

/-- C2: for every JD group, both the final ranks of the linear scorer
(`final_rank` in `compute_linear_score`) and the intermediate DEI ranks
(`rank_with_dei` in `rerank_with_dei`) — both computed with
`rank(method='first', ascending=False)` — take each value `1..N` exactly once;
ties on equal scores are broken by first-encountered row order (the earlier
row gets the smaller rank); and re-running on unchanged input yields identical
ranks. -/
theorem C2_dense_ranks_and_stable_ties (raw_scores dei_boosts cos_norm : List ℚ)
    (dei_tag_count : List ℕ) :
    (∀ k : ℕ, 1 ≤ k → k ≤ (reranking.final_score_group raw_scores dei_boosts).length →
      (reranking.final_rank_group raw_scores dei_boosts).count k = 1) ∧
    (∀ k : ℕ, 1 ≤ k → k ≤ (reranking.score_with_dei cos_norm dei_tag_count).length →
      (reranking.rank_with_dei cos_norm dei_tag_count).count k = 1) ∧
    (∀ s : List ℚ, ∀ i j : Fin s.length, s.get i = s.get j → i < j →
      reranking.rankIdx s i < reranking.rankIdx s j) ∧
    (∀ raw' dei', raw' = raw_scores → dei' = dei_boosts →
      reranking.final_rank_group raw' dei' =
        reranking.final_rank_group raw_scores dei_boosts) := by
  refine ⟨?_, ?_, ?_, ?_⟩
  · intro k h1 h2
    exact rankFirstDesc_count _ k h1 h2
  · intro k h1 h2
    exact rankFirstDesc_count _ k h1 h2
  · intro s i j heq hij
    exact rankIdx_lt_of_prec (Or.inr ⟨heq, hij⟩)
  · rintro raw' dei' rfl rfl
    rfl

/-- C2 witness: the group with raw linear scores `[1, 2, 2]` and zero DEI
boosts receives the dense final ranks `{1, 2, 3}` (value `2` appears twice and
is split by row order), and equal scores are ranked by row order. -/
theorem C2_dense_ranks_and_stable_ties_witness :
    (reranking.final_rank_group [(1 : ℚ), 2, 2] [0, 0, 0]).count 1 = 1 ∧
    (reranking.final_rank_group [(1 : ℚ), 2, 2] [0, 0, 0]).count 2 = 1 ∧
    (reranking.final_rank_group [(1 : ℚ), 2, 2] [0, 0, 0]).count 3 = 1 ∧
    reranking.rankIdx [(5 : ℚ), 5] ⟨0, by norm_num⟩ <
      reranking.rankIdx [(5 : ℚ), 5] ⟨1, by norm_num⟩ := by
  have h := C2_dense_ranks_and_stable_ties [(1 : ℚ), 2, 2] [0, 0, 0] [] []
  refine ⟨h.1 1 (by norm_num) (by decide), h.1 2 (by norm_num) (by decide),
    h.1 3 (by norm_num) (by decide), ?_⟩
  exact h.2.2.1 [(5 : ℚ), 5] ⟨0, by norm_num⟩ ⟨1, by norm_num⟩ (by decide) (by decide)

lemma clip01_bounds (x : ℚ) : 0 ≤ reranking.clip01 x ∧ reranking.clip01 x ≤ 1 := by
  unfold reranking.clip01
  exact ⟨le_max_left 0 _, max_le (by norm_num) (min_le_left 1 x)⟩

lemma mem_zipWith_clip {f : ℚ → ℚ → ℚ} (hf : ∀ a b, f a b = reranking.clip01 (a + b))
    (A B : List ℚ) {x : ℚ} (hx : x ∈ List.zipWith f A B) : 0 ≤ x ∧ x ≤ 1 := by
  induction A generalizing B with
  | nil => cases hx
  | cons a A ih =>
    cases B with
    | nil => cases hx
    | cons b B =>
      rw [List.zipWith_cons_cons] at hx
      rcases List.mem_cons.mp hx with rfl | hx
      · rw [hf]; exact clip01_bounds _
      · exact ih B hx

lemma sumSq_nonneg (l : List ℝ) : 0 ≤ singleMatch.sumSq l := by
  refine List.sum_nonneg ?_
  intro y hy
  obtain ⟨x, _, rfl⟩ := List.mem_map.mp hy
  exact mul_self_nonneg x

lemma two_mul_le_add_of_sq_le_mul {u v w : ℝ} (hu : 0 ≤ u) (hv : 0 ≤ v)
    (h : w ^ 2 ≤ u * v) : 2 * w ≤ u + v := by
  nlinarith [sq_nonneg (u - v), sq_nonneg (u + v), hu, hv]

/-- Cauchy-Schwarz for the embedded dot product and squared norms. -/
lemma dot_sq_le_sumSq_mul_sumSq (a b : List ℝ) :
    singleMatch.dotList a b ^ 2 ≤ singleMatch.sumSq a * singleMatch.sumSq b := by
  induction a generalizing b with
  | nil =>
    simp [singleMatch.dotList, singleMatch.sumSq]
  | cons x a ih =>
    cases b with
    | nil =>
      simp [singleMatch.dotList, singleMatch.sumSq]
    | cons y b =>
      have ihb := ih b
      have hSa := sumSq_nonneg a
      have hSb := sumSq_nonneg b
      have h1 : (x * y * singleMatch.dotList a b) ^ 2 ≤
          (x ^ 2 * singleMatch.sumSq b) * (y ^ 2 * singleMatch.sumSq a) := by
        nlinarith [ihb, sq_nonneg (x * y)]
      have h2 : 2 * (x * y * singleMatch.dotList a b) ≤
          x ^ 2 * singleMatch.sumSq b + y ^ 2 * singleMatch.sumSq a :=
        two_mul_le_add_of_sq_le_mul (by positivity) (by positivity) h1
      have hdot : singleMatch.dotList (x :: a) (y :: b) =
          x * y + singleMatch.dotList a b := by
        simp [singleMatch.dotList]
      have hsa : singleMatch.sumSq (x :: a) = x * x + singleMatch.sumSq a := by
        simp [singleMatch.sumSq]
      have hsb : singleMatch.sumSq (y :: b) = y * y + singleMatch.sumSq b := by
        simp [singleMatch.sumSq]
      rw [hdot, hsa, hsb]
      nlinarith [ihb, h2]

lemma abs_dot_le_norms (a b : List ℝ) :
    |singleMatch.dotList a b| ≤
      Real.sqrt (singleMatch.sumSq a) * Real.sqrt (singleMatch.sumSq b) := by
  rw [← Real.sqrt_mul_self (abs_nonneg (singleMatch.dotList a b)),
    ← Real.sqrt_mul (sumSq_nonneg a)]
  apply Real.sqrt_le_sqrt
  have := dot_sq_le_sumSq_mul_sumSq a b
  calc |singleMatch.dotList a b| * |singleMatch.dotList a b|
      = singleMatch.dotList a b ^ 2 := by rw [← abs_mul, abs_mul_self]; ring
    _ ≤ singleMatch.sumSq a * singleMatch.sumSq b := this

lemma sumSq_eq_zero_of_all_zero {l : List ℝ} (h : ∀ x ∈ l, x = 0) :
    singleMatch.sumSq l = 0 := by
  refine List.sum_eq_zero ?_
  intro y hy
  obtain ⟨x, hx, rfl⟩ := List.mem_map.mp hy
  rw [h x hx, mul_zero]

/-- C1 counterexample: the embedding vectors `[1]` and `[-1]` give cosine
similarity `-1`, so the claimed lower bound `0 ≤ cosine_similarity` fails. -/
theorem C1_counterexample_negative_cosine :
    singleMatch.cosine_similarity [1] [-1] = -1 := by
  have h1 : singleMatch.sumSq [(1 : ℝ)] = 1 := by
    simp [singleMatch.sumSq]
  have h2 : singleMatch.sumSq [(-1 : ℝ)] = 1 := by
    simp [singleMatch.sumSq]
  have h3 : singleMatch.dotList [(1 : ℝ)] [(-1 : ℝ)] = -1 := by
    simp [singleMatch.dotList]
  rw [singleMatch.cosine_similarity, h1, h2, h3, Real.sqrt_one]
  norm_num

/-- C1 (amended): every final score is in `[0, 1]` — in the batch linear
scorer because of the `.clip(0, 1)` after the per-group normalization plus DEI
boost, and in the single-pair service because of `max(0, min(1, ...))`; the
single-pair cosine similarity lies in `[-1, 1]` (not `[0, 1]`: it is negative
for opposed embedding vectors) and is exactly `0` whenever either embedding
vector is the zero vector. -/
theorem C1_score_and_cosine_bounds (raw_scores dei_boosts : List ℚ)
    (features : String → ℝ) (vec1 vec2 : List ℝ) :
    (∀ x ∈ reranking.final_score_group raw_scores dei_boosts, 0 ≤ x ∧ x ≤ 1) ∧
    (0 ≤ singleMatch.compute_score_final features ∧
      singleMatch.compute_score_final features ≤ 1) ∧
    (-1 ≤ singleMatch.cosine_similarity vec1 vec2 ∧
      singleMatch.cosine_similarity vec1 vec2 ≤ 1) ∧
    ((∀ x ∈ vec1, x = 0) ∨ (∀ x ∈ vec2, x = 0) →
      singleMatch.cosine_similarity vec1 vec2 = 0) := by
  refine ⟨?_, ?_, ?_, ?_⟩
  · intro x hx
    exact mem_zipWith_clip (fun _ _ => rfl) _ _ hx
  · constructor
    · exact le_max_left 0 _
    · exact max_le (by norm_num) (min_le_left 1 _)
  · rw [singleMatch.cosine_similarity]
    by_cases h : Real.sqrt (singleMatch.sumSq vec1) = 0 ∨
        Real.sqrt (singleMatch.sumSq vec2) = 0
    · rw [if_pos h]; norm_num
    · rw [if_neg h]
      push_neg at h
      have h1 : 0 < Real.sqrt (singleMatch.sumSq vec1) :=
        lt_of_le_of_ne (Real.sqrt_nonneg _) (Ne.symm h.1)
      have h2 : 0 < Real.sqrt (singleMatch.sumSq vec2) :=
        lt_of_le_of_ne (Real.sqrt_nonneg _) (Ne.symm h.2)
      have hpos : 0 < Real.sqrt (singleMatch.sumSq vec1) *
          Real.sqrt (singleMatch.sumSq vec2) := mul_pos h1 h2
      have habs : |singleMatch.dotList vec1 vec2 /
          (Real.sqrt (singleMatch.sumSq vec1) * Real.sqrt (singleMatch.sumSq vec2))| ≤ 1 := by
        rw [abs_div, abs_of_pos hpos, div_le_one hpos]
        exact abs_dot_le_norms vec1 vec2
      exact abs_le.mp habs
  · intro h
    rw [singleMatch.cosine_similarity, if_pos]
    rcases h with h | h
    · exact Or.inl (by rw [sumSq_eq_zero_of_all_zero h, Real.sqrt_zero])
    · exact Or.inr (by rw [sumSq_eq_zero_of_all_zero h, Real.sqrt_zero])

/-- C1 witness: the bounds at the concrete group `[1, 2]` with zero boosts
(first score `0` is a member), and cosine similarity `0` for the zero vector
against `[3]`. -/
theorem C1_score_and_cosine_bounds_witness :
    (0 ≤ (0 : ℚ) ∧ (0 : ℚ) ≤ 1) ∧
    singleMatch.cosine_similarity [0] [3] = 0 := by
  have h := C1_score_and_cosine_bounds [(1 : ℚ), 2] [0, 0] (fun _ => 0) [0] [3]
  refine ⟨h.1 0 ?_, h.2.2.2 (Or.inl ?_)⟩
  · have hlist : reranking.final_score_group [(1 : ℚ), 2] [0, 0] = [0, 1] := by
      norm_num [reranking.final_score_group, reranking.normalize_group,
        reranking.listMax, reranking.listMin, reranking.clip01]
    rw [hlist]
    exact List.mem_cons_self 0 [1]
  · intro x hx
    simpa using hx

/-- C6: on the spec example `"Senior Dev @ Acme [2020-01 - 2022-01]"` the code
returns `0.0`, not the claimed `2.0`: `re.split(r'\s*[-–]\s*', ...)` also
splits at the hyphens inside the `YYYY-MM` dates (as `\s*` matches the empty
string), producing four parts, so the segment is skipped.  The docstring of
`calculate_years_of_experience` promises `4.3` for
`"Data Scientist @ Company [2022-01 - 2024-05] | Junior Dev @ Startup [2020 - 2022]"`,
but for the same reason the first segment is skipped and the code returns
`2.0` — the code contradicts its own documentation, and the claim describes
the documented intent. -/
theorem C6_years_of_experience_code_bug :
    normalizzatore.calculate_years_of_experience ⟨2026, 1, 1⟩
      "Senior Dev @ Acme [2020-01 - 2022-01]" = 0 ∧
    normalizzatore.reSplitDashes "2020-01 - 2022-01".toList =
      ["2020".toList, "01".toList, "2022".toList, "01".toList] ∧
    normalizzatore.calculate_years_of_experience ⟨2026, 1, 1⟩
      "Data Scientist @ Company [2022-01 - 2024-05] | Junior Dev @ Startup [2020 - 2022]" = 2 ∧
    (2 : ℚ) ≠ 43 / 10 := by
  refine ⟨by with_unfolding_all decide, by decide, by with_unfolding_all decide, by norm_num⟩

/-- C4 counterexample: the claimed guard does not exist — the normalizer never
checks whether an output column is already present.  On a row whose
`skills_normalized` column is already present (holding `"BOGUS"`) with raw
`skills = "js"`, re-running the normalization overwrites the present output
column with the freshly recomputed value `"Js"`. -/
theorem C4_counterexample_no_output_presence_guard :
    (normalizzatore.normalize_cv_row ⟨[], [], []⟩ ⟨2026, 1, 1⟩
      { skills := some "js", languages := none, experience := none,
        pref_salary_expectation := none, tags := [],
        skills_normalized := some "BOGUS", languages_normalized := some "",
        inferred_seniority := some "mid", years_of_experience := some 0,
        pref_salary_normalized := some "" }).skills_normalized = some "Js" ∧
    (some "Js" : Option String) ≠ some "BOGUS" := by
  constructor
  · decide
  · decide

/-- C4 (amended): re-running the dataset normalization on an already-normalized
row produces the identical row — but not because of presence checks on output
column names (no such checks exist; the only presence checks are on the
*optional input* columns `company_name` and `min_experience_years`).  It is
idempotent because every output column is recomputed deterministically from
the raw input columns, which the first run leaves unchanged (the `tag_*`
rewrite and the created-empty `company_name` are themselves fixed points), and
is then written unconditionally over whatever was there. -/
theorem C4_normalization_idempotent (ont : normalizzatore.SkillOntology)
    (now : normalizzatore.PyDate) (r_cv : normalizzatore.CvRow)
    (r_jd : normalizzatore.JdRow) (has_company_col has_min_exp_col : Bool) :
    normalizzatore.normalize_cv_row ont now (normalizzatore.normalize_cv_row ont now r_cv) =
      normalizzatore.normalize_cv_row ont now r_cv ∧
    normalizzatore.normalize_jd_row ont true has_min_exp_col
        (normalizzatore.normalize_jd_row ont has_company_col has_min_exp_col r_jd) =
      normalizzatore.normalize_jd_row ont has_company_col has_min_exp_col r_jd := by
  have htag : ∀ x : Option Bool,
      normalizzatore.pyTagCell (normalizzatore.pyTagCell x) = normalizzatore.pyTagCell x := by
    decide
  constructor
  · simp [normalizzatore.normalize_cv_row, List.map_map, Function.comp, htag]
  · simp [normalizzatore.normalize_jd_row, normalizzatore.rebuild_salary_string]

lemma isSubstringOf_append_mid (n pre post : List Char) :
    normalizzatore.isSubstringOf n (pre ++ n ++ post) = true := by
  unfold normalizzatore.isSubstringOf
  rw [List.any_eq_true]
  refine ⟨n ++ post, ?_, ?_⟩
  · rw [List.mem_tails, List.append_assoc]
    exact List.suffix_append pre (n ++ post)
  · rw [List.isPrefixOf_iff_prefix]
    exact List.prefix_append n post

lemma isSubstringOf_of_infix {n hay : List Char} (h : n <:+: hay) :
    normalizzatore.isSubstringOf n hay = true := by
  obtain ⟨pre, post, rfl⟩ := h
  exact isSubstringOf_append_mid n pre post

lemma user_msg_contains_id (uid : String) (pool : List String) :
    singleMatch.strContains (singleMatch.user_not_found_msg uid pool) uid = true := by
  unfold singleMatch.strContains
  apply isSubstringOf_of_infix
  refine ⟨("USER_ID " ++ singleMatch.sq).toList,
    (singleMatch.sq ++ " non trovato nel dataset CV. " ++
      singleMatch.hintFor (pool.take 5)
        (difflib.get_close_matches uid pool 5 (2 / 5))).toList, ?_⟩
  simp [singleMatch.user_not_found_msg, singleMatch.pyQuote, String.toList,
    String.data_append, List.append_assoc]

lemma user_msg_contains_suggestions (uid : String) (pool : List String)
    (h : difflib.get_close_matches uid pool 5 (2 / 5) ≠ []) :
    singleMatch.strContains (singleMatch.user_not_found_msg uid pool)
      (singleMatch.pyListRepr (difflib.get_close_matches uid pool 5 (2 / 5))) = true := by
  unfold singleMatch.strContains
  apply isSubstringOf_of_infix
  unfold singleMatch.user_not_found_msg singleMatch.hintFor
  rw [if_pos h]
  by_cases hs : pool.take 5 ≠ []
  · rw [if_pos hs]
    have hne : ("Esempi presenti: " ++ singleMatch.pyListRepr (pool.take 5) ++ "." : String) ≠ "" := by
      intro hc
      have := congrArg String.toList hc
      simp [String.toList, String.data_append] at this
    rw [if_pos hne]
    refine ⟨("USER_ID " ++ singleMatch.pyQuote uid ++ " non trovato nel dataset CV. " ++
      ("Esempi presenti: " ++ singleMatch.pyListRepr (pool.take 5) ++ "." ++
        " Suggerimenti simili: ")).toList, [], ?_⟩
    simp [String.toList, String.data_append, List.append_assoc]
  · rw [if_neg hs, if_neg (by simp)]
    refine ⟨("USER_ID " ++ singleMatch.pyQuote uid ++ " non trovato nel dataset CV. " ++
      "Suggerimenti simili: ").toList, [], ?_⟩
    simp [String.toList, String.data_append, List.append_assoc]

lemma jd_msg_contains_id (jid : String) (pool : List String) :
    singleMatch.strContains (singleMatch.jd_not_found_msg jid pool) jid = true := by
  unfold singleMatch.strContains
  apply isSubstringOf_of_infix
  refine ⟨("JD_ID " ++ singleMatch.sq).toList,
    (singleMatch.sq ++ " non trovato nel dataset JD. " ++
      singleMatch.hintFor (pool.take 5)
        (difflib.get_close_matches jid pool 5 (2 / 5))).toList, ?_⟩
  simp [singleMatch.jd_not_found_msg, singleMatch.pyQuote, String.toList,
    String.data_append, List.append_assoc]

lemma jd_msg_contains_suggestions (jid : String) (pool : List String)
    (h : difflib.get_close_matches jid pool 5 (2 / 5) ≠ []) :
    singleMatch.strContains (singleMatch.jd_not_found_msg jid pool)
      (singleMatch.pyListRepr (difflib.get_close_matches jid pool 5 (2 / 5))) = true := by
  unfold singleMatch.strContains
  apply isSubstringOf_of_infix
  unfold singleMatch.jd_not_found_msg singleMatch.hintFor
  rw [if_pos h]
  by_cases hs : pool.take 5 ≠ []
  · rw [if_pos hs]
    have hne : ("Esempi presenti: " ++ singleMatch.pyListRepr (pool.take 5) ++ "." : String) ≠ "" := by
      intro hc
      have := congrArg String.toList hc
      simp [String.toList, String.data_append] at this
    rw [if_pos hne]
    refine ⟨("JD_ID " ++ singleMatch.pyQuote jid ++ " non trovato nel dataset JD. " ++
      ("Esempi presenti: " ++ singleMatch.pyListRepr (pool.take 5) ++ "." ++
        " Suggerimenti simili: ")).toList, [], ?_⟩
    simp [String.toList, String.data_append, List.append_assoc]
  · rw [if_neg hs, if_neg (by simp)]
    refine ⟨("JD_ID " ++ singleMatch.pyQuote jid ++ " non trovato nel dataset JD. " ++
      "Suggerimenti simili: ").toList, [], ?_⟩
    simp [String.toList, String.data_append, List.append_assoc]

/-- C8: for an unknown `user_id` (absent from the embeddings table and from
the normalized dataset) the single-pair service fails validation with a
message that names the missing id and, whenever the fuzzy matcher
(`difflib.get_close_matches` over the known ids) finds any candidate, embeds
those suggestions, and the HTTP endpoint surfaces this as a 404 with exactly
that message; symmetrically, for a known `user_id` but unknown `jd_id` the
service fails on the JD check with the JD not-found message (id named,
suggestions embedded when any exist) and the endpoint answers 404 with that
message; and on any successful comparison the returned candidate carries
exactly the requested `user_id` and `jd_id` (no silent substitution). -/
theorem C8_not_found_404_with_suggestions (data : singleMatch.MatchData)
    (uid jid : String) :
    (uid ∉ data.cv_emb_ids → uid ∉ data.cv_data.map (fun r => r.user_id) →
      singleMatch.validate_inputs uid jid data.cv_emb_ids
          (data.cv_data.map (fun r => r.user_id)) data.jd_emb_ids
          (data.jd_data.map (fun r => r.jd_id)) =
        (false, some (singleMatch.user_not_found_msg uid (singleMatch.cvPool data))) ∧
      singleMatch.strContains
        (singleMatch.user_not_found_msg uid (singleMatch.cvPool data)) uid = true ∧
      (difflib.get_close_matches uid (singleMatch.cvPool data) 5 (2 / 5) ≠ [] →
        singleMatch.strContains (singleMatch.user_not_found_msg uid (singleMatch.cvPool data))
          (singleMatch.pyListRepr
            (difflib.get_close_matches uid (singleMatch.cvPool data) 5 (2 / 5))) = true) ∧
      singleMatch.match_cv_jd data uid jid =
        .notFound (singleMatch.user_not_found_msg uid (singleMatch.cvPool data))) ∧
    ((uid ∈ data.cv_emb_ids ∨ uid ∈ data.cv_data.map (fun r => r.user_id)) →
      jid ∉ data.jd_emb_ids → jid ∉ data.jd_data.map (fun r => r.jd_id) →
      singleMatch.validate_inputs uid jid data.cv_emb_ids
          (data.cv_data.map (fun r => r.user_id)) data.jd_emb_ids
          (data.jd_data.map (fun r => r.jd_id)) =
        (false, some (singleMatch.jd_not_found_msg jid (singleMatch.jdPool data))) ∧
      singleMatch.strContains
        (singleMatch.jd_not_found_msg jid (singleMatch.jdPool data)) jid = true ∧
      (difflib.get_close_matches jid (singleMatch.jdPool data) 5 (2 / 5) ≠ [] →
        singleMatch.strContains (singleMatch.jd_not_found_msg jid (singleMatch.jdPool data))
          (singleMatch.pyListRepr
            (difflib.get_close_matches jid (singleMatch.jdPool data) 5 (2 / 5))) = true) ∧
      singleMatch.match_cv_jd data uid jid =
        .notFound (singleMatch.jd_not_found_msg jid (singleMatch.jdPool data))) ∧
    (∀ out, singleMatch.compare_cv_with_jd data uid jid = Except.ok out →
      out.user_id = uid ∧ out.jd_id = jid) := by
  refine ⟨?_, ?_, ?_⟩
  · intro h1 h2
    have hval : singleMatch.validate_inputs uid jid data.cv_emb_ids
        (data.cv_data.map (fun r => r.user_id)) data.jd_emb_ids
        (data.jd_data.map (fun r => r.jd_id)) =
        (false, some (singleMatch.user_not_found_msg uid (singleMatch.cvPool data))) := by
      unfold singleMatch.validate_inputs singleMatch.cvPool
      rw [if_pos ⟨h1, h2⟩]
    refine ⟨hval, user_msg_contains_id uid _, user_msg_contains_suggestions uid _, ?_⟩
    unfold singleMatch.match_cv_jd singleMatch.compare_cv_with_jd
    rw [hval]
    rfl
  · intro hu h1 h2
    have hval : singleMatch.validate_inputs uid jid data.cv_emb_ids
        (data.cv_data.map (fun r => r.user_id)) data.jd_emb_ids
        (data.jd_data.map (fun r => r.jd_id)) =
        (false, some (singleMatch.jd_not_found_msg jid (singleMatch.jdPool data))) := by
      unfold singleMatch.validate_inputs singleMatch.jdPool
      rw [if_neg (fun hc => Or.elim hu (fun h => hc.1 h) (fun h => hc.2 h)),
        if_pos ⟨h1, h2⟩]
    refine ⟨hval, jd_msg_contains_id jid _, jd_msg_contains_suggestions jid _, ?_⟩
    unfold singleMatch.match_cv_jd singleMatch.compare_cv_with_jd
    rw [hval]
    rfl
  · intro out h
    unfold singleMatch.compare_cv_with_jd at h
    split at h
    · exact Except.noConfusion h
    · split at h
      · exact Except.noConfusion h
      · split at h
        · exact Except.noConfusion h
        · split at h
          · exact Except.noConfusion h
          · split at h
            · exact Except.noConfusion h
            · injection h with h
              subst h
              exact ⟨rfl, rfl⟩

/-- C8 witness: over a state with known ids `user_001`/`jd_001`, the request
(`user_01`, `jd_001`) hits the unknown-user 404 with a message containing the
missing user id, and the request (`user_001`, `jd_01`) hits the unknown-JD
404 with a message containing the missing JD id. -/
theorem C8_not_found_404_with_suggestions_witness :
    (singleMatch.match_cv_jd singleMatch.c8Data "user_01" "jd_001" =
      .notFound (singleMatch.user_not_found_msg "user_01"
        (singleMatch.cvPool singleMatch.c8Data)) ∧
    singleMatch.strContains
      (singleMatch.user_not_found_msg "user_01"
        (singleMatch.cvPool singleMatch.c8Data)) "user_01" = true) ∧
    (singleMatch.match_cv_jd singleMatch.c8Data "user_001" "jd_01" =
      .notFound (singleMatch.jd_not_found_msg "jd_01"
        (singleMatch.jdPool singleMatch.c8Data)) ∧
    singleMatch.strContains
      (singleMatch.jd_not_found_msg "jd_01"
        (singleMatch.jdPool singleMatch.c8Data)) "jd_01" = true) := by
  have hu := (C8_not_found_404_with_suggestions singleMatch.c8Data "user_01" "jd_001").1
    (by decide) (by decide)
  have hj := (C8_not_found_404_with_suggestions singleMatch.c8Data "user_001" "jd_01").2.1
    (Or.inl (by decide)) (by decide) (by decide)
  exact ⟨⟨hu.2.2.2, hu.2.1⟩, ⟨hj.2.2.2, hj.2.1⟩⟩

end PiazzaTi
